import Mathlib

/-!
Verification of the LangGraph-powered workspace agent loop
(`src/tiangong_ai_workspace/agents/deep_agent.py`).

The development shallowly embeds the agent's planning loop: Python/JSON
values are modelled by the inductive `PyVal`, the standard-library
`json.loads` / `json.dumps` calls are modelled by executable parsers and
printers over `PyVal` (on the JSON fragment without floating-point
literals, which no claim exercises), and the compiled LangGraph graph is
modelled by an explicit three-node state machine (`GraphNode`,
`stepAgent`).  All definitions are executable and fuel-based where
recursion is not structural, so that concrete runs evaluate by `rfl` or
`decide`.
-/

/-- Python values as they flow through the agent loop: the JSON universe
(`None`, booleans, integers, strings, lists, string-keyed dicts) plus
`obj`, an opaque non-JSON-serializable Python object whose `str()` form
is the carried string.  Floating-point numbers are not modelled. -/
inductive PyVal where
  | none : PyVal
  | bool : Bool → PyVal
  | int : Int → PyVal
  | str : String → PyVal
  | list : List PyVal → PyVal
  | dict : List (String × PyVal) → PyVal
  | obj : String → PyVal

/-- A Python dict with string keys, in insertion order (the shape
`_parse_plan` returns and `plan_node` consumes). -/
abbrev PyDict := List (String × PyVal)

/-- Python truthiness (`bool(x)`): `None`, `False`, `0`, `""`, `[]` and
`{}` are falsy; a bare object is truthy. -/
def pyTruthy : PyVal → Bool
  | PyVal.none => false
  | PyVal.bool b => b
  | PyVal.int n => !(n == 0)
  | PyVal.str s => !(s == "")
  | PyVal.list xs => !xs.isEmpty
  | PyVal.dict kvs => !kvs.isEmpty
  | PyVal.obj _ => true

/-- Python `a or b`: `a` when truthy, else `b`. -/
def pyOr (a b : PyVal) : PyVal := if pyTruthy a then a else b

/-- Python `d.get(k, default)`: first binding of `k`, else the default. -/
def pyGet (d : PyDict) (k : String) (default : PyVal) : PyVal :=
  match d with
  | [] => default
  | (k', v) :: rest => if k' = k then v else pyGet rest k default

/-- Python `d[k] = v`: replace the value in place if the key exists
(keeping its position), otherwise append the binding. -/
def dictSet (d : PyDict) (k : String) (v : PyVal) : PyDict :=
  match d with
  | [] => [(k, v)]
  | (k', v') :: rest => if k' = k then (k, v) :: rest else (k', v') :: dictSet rest k v

/-- Decimal digit character for `d < 10`. -/
def digitChar (d : Nat) : Char := Char.ofNat (48 + d)

/-- Decimal digits of `n`, most significant first; fuel-based so that the
definition is structural and kernel-reducible. -/
def natCharsAux : Nat → Nat → List Char
  | 0, _ => []
  | fuel + 1, n => if n < 10 then [digitChar n] else natCharsAux fuel (n / 10) ++ [digitChar (n % 10)]

/-- Decimal digits of a natural number. -/
def natChars (n : Nat) : List Char := natCharsAux (n + 1) n

/-- Python `str()` of an integer. -/
def intStr (i : Int) : String :=
  if i < 0 then ⟨'-' :: natChars i.natAbs⟩ else ⟨natChars i.natAbs⟩

mutual
/-- Python `repr()` of a value (model: strings are wrapped in single
quotes without escaping, as no claim exercises quoting corner cases). -/
def pyRepr : PyVal → String
  | PyVal.none => "None"
  | PyVal.bool true => "True"
  | PyVal.bool false => "False"
  | PyVal.int i => intStr i
  | PyVal.str s => "'" ++ s ++ "'"
  | PyVal.list xs => "[" ++ pyReprJoin xs ++ "]"
  | PyVal.dict kvs => "\x7b" ++ pyReprKVs kvs ++ "\x7d"
  | PyVal.obj s => s

/-- Comma-joined `repr`s of list elements. -/
def pyReprJoin : List PyVal → String
  | [] => ""
  | [v] => pyRepr v
  | v :: w :: rest => pyRepr v ++ ", " ++ pyReprJoin (w :: rest)

/-- Comma-joined `repr`s of dict items. -/
def pyReprKVs : List (String × PyVal) → String
  | [] => ""
  | [(k, v)] => "'" ++ k ++ "': " ++ pyRepr v
  | (k, v) :: kv :: rest => "'" ++ k ++ "': " ++ pyRepr v ++ ", " ++ pyReprKVs (kv :: rest)
end

/-- Python `str()` of a value: strings pass through unchanged, containers
render as their `repr`. -/
def pyStr : PyVal → String
  | PyVal.str s => s
  | PyVal.list xs => "[" ++ pyReprJoin xs ++ "]"
  | PyVal.dict kvs => "\x7b" ++ pyReprKVs kvs ++ "\x7d"
  | v => pyRepr v

mutual
/-- Whether a value contains an opaque (non-JSON-serializable) object. -/
def hasObj : PyVal → Bool
  | PyVal.obj _ => true
  | PyVal.list xs => hasObjList xs
  | PyVal.dict kvs => hasObjKVs kvs
  | _ => false

/-- `hasObj` over a list of values. -/
def hasObjList : List PyVal → Bool
  | [] => false
  | v :: rest => hasObj v || hasObjList rest

/-- `hasObj` over dict items. -/
def hasObjKVs : List (String × PyVal) → Bool
  | [] => false
  | (_, v) :: rest => hasObj v || hasObjKVs rest
end

/-- Python `str.strip()` whitespace set (ASCII fragment). -/
def pySpace (c : Char) : Bool :=
  c = ' ' || c = '\t' || c = '\n' || c = '\r' || c = '\x0b' || c = '\x0c'

/-- Left strip: drop leading whitespace. -/
def stripL (cs : List Char) : List Char := cs.dropWhile pySpace

/-- Right strip: drop trailing whitespace. -/
def stripR (cs : List Char) : List Char := (cs.reverse.dropWhile pySpace).reverse

/-- Python `str.strip()` on a character list. -/
def pyStrip (cs : List Char) : List Char := stripL (stripR cs)

/-- Python `str.strip()` on a string. -/
def pyStripS (s : String) : String := ⟨pyStrip s.data⟩

/-- Python `str.lower()` (ASCII). -/
def pyLowerS (s : String) : String := ⟨s.data.map Char.toLower⟩

/-- The fenced-code-block delimiter of `_parse_plan`. -/
def fenceDelim : List Char := ['`', '`', '`']

/-- First occurrence of the fence delimiter: `some (before, after)` when
the delimiter occurs, splitting off the text before it and after it. -/
def findFence : List Char → Option (List Char × List Char)
  | [] => Option.none
  | c :: cs =>
    if fenceDelim.isPrefixOf (c :: cs) then Option.some ([], (c :: cs).drop 3)
    else
      match findFence cs with
      | Option.some (pre, post) => Option.some (c :: pre, post)
      | Option.none => Option.none

/-- Python `"```" in s`. -/
def hasFence (cs : List Char) : Bool := (findFence cs).isSome

/-- Python `s.split("```")`; fuel-based (fuel `cs.length + 1` always
suffices since each delimiter occurrence consumes three characters). -/
def splitFence : Nat → List Char → List (List Char)
  | 0, cs => [cs]
  | fuel + 1, cs =>
    match findFence cs with
    | Option.none => [cs]
    | Option.some (pre, post) => pre :: splitFence fuel post

/-- The segment-collection loop of `_parse_plan`: strip each block, skip
blocks that are empty after stripping, and strip a leading `json`
language tag (case-insensitively) from the surviving blocks. -/
def fenceSegments : List (List Char) → List (List Char)
  | [] => []
  | b :: bs =>
    let b' := pyStrip b
    if b' = [] then fenceSegments bs
    else
      let b'' := if ("json".data.isPrefixOf (b'.map Char.toLower)) then pyStrip (b'.drop 4) else b'
      b'' :: fenceSegments bs

/-- JSON whitespace accepted by `json.loads` between tokens. -/
def jsonWs (c : Char) : Bool := c = ' ' || c = '\t' || c = '\n' || c = '\r'

/-- Skip JSON whitespace. -/
def skipJsonWs (cs : List Char) : List Char := cs.dropWhile jsonWs

/-- Hex digit value, if `c` is a hex digit. -/
def hexVal (c : Char) : Option Nat :=
  if '0' ≤ c ∧ c ≤ '9' then Option.some (c.toNat - 48)
  else if 'a' ≤ c ∧ c ≤ 'f' then Option.some (c.toNat - 87)
  else if 'A' ≤ c ∧ c ≤ 'F' then Option.some (c.toNat - 55)
  else Option.none

/-- Strict-JSON number parsing (integer fragment): optional minus, then
either `0` or a nonzero-led digit run; a fractional or exponent part is
outside the modelled fragment and fails the parse. -/
def jsonNumber (cs : List Char) : Option (PyVal × List Char) :=
  let (neg, cs₁) := match cs with
    | '-' :: rest => (true, rest)
    | _ => (false, cs)
  match cs₁ with
  | [] => Option.none
  | c :: _ =>
    if !c.isDigit then Option.none
    else
      let digits := cs₁.takeWhile Char.isDigit
      let rest := cs₁.dropWhile Char.isDigit
      if digits.length > 1 ∧ c = '0' then Option.none
      else
        match rest with
        | '.' :: _ => Option.none
        | 'e' :: _ => Option.none
        | 'E' :: _ => Option.none
        | _ =>
          let n : Nat := digits.foldl (fun acc d => acc * 10 + (d.toNat - 48)) 0
          Option.some (PyVal.int (if neg then -(n : Int) else (n : Int)), rest)

mutual
/-- One JSON value, returning the unconsumed remainder.  Fuel-based; the
fuel `2 * length + 2` used by `jsonLoads` always suffices. -/
def jsonValue : Nat → List Char → Option (PyVal × List Char)
  | 0, _ => Option.none
  | fuel + 1, cs =>
    match cs with
    | '\x7b' :: rest => jsonMembers fuel (skipJsonWs rest) [] true
    | '[' :: rest => jsonElements fuel (skipJsonWs rest) [] true
    | '"' :: rest =>
      match jsonString fuel rest [] with
      | Option.some (s, r) => Option.some (PyVal.str s, r)
      | Option.none => Option.none
    | 't' :: 'r' :: 'u' :: 'e' :: rest => Option.some (PyVal.bool true, rest)
    | 'f' :: 'a' :: 'l' :: 's' :: 'e' :: rest => Option.some (PyVal.bool false, rest)
    | 'n' :: 'u' :: 'l' :: 'l' :: rest => Option.some (PyVal.none, rest)
    | _ => jsonNumber cs

/-- JSON object members after the opening brace (and whitespace); `first`
is true before any member has been read, so that `{}` is accepted but a
trailing comma is not.  Duplicate keys overwrite in place, as in Python. -/
def jsonMembers : Nat → List Char → PyDict → Bool → Option (PyVal × List Char)
  | 0, _, _, _ => Option.none
  | fuel + 1, cs, acc, first =>
    match cs with
    | '\x7d' :: rest => if first then Option.some (PyVal.dict acc, rest) else Option.none
    | '"' :: rest =>
      match jsonString fuel rest [] with
      | Option.none => Option.none
      | Option.some (k, r₁) =>
        match skipJsonWs r₁ with
        | ':' :: r₂ =>
          match jsonValue fuel (skipJsonWs r₂) with
          | Option.none => Option.none
          | Option.some (v, r₃) =>
            let acc' := dictSet acc k v
            match skipJsonWs r₃ with
            | '\x7d' :: r₄ => Option.some (PyVal.dict acc', r₄)
            | ',' :: r₄ => jsonMembers fuel (skipJsonWs r₄) acc' false
            | _ => Option.none
        | _ => Option.none
    | _ => Option.none

/-- JSON array elements after the opening bracket (and whitespace). -/
def jsonElements : Nat → List Char → List PyVal → Bool → Option (PyVal × List Char)
  | 0, _, _, _ => Option.none
  | fuel + 1, cs, acc, first =>
    match cs with
    | ']' :: rest => if first then Option.some (PyVal.list acc.reverse, rest) else Option.none
    | _ =>
      match jsonValue fuel cs with
      | Option.none => Option.none
      | Option.some (v, r₁) =>
        match skipJsonWs r₁ with
        | ']' :: r₂ => Option.some (PyVal.list (v :: acc).reverse, r₂)
        | ',' :: r₂ => jsonElements fuel (skipJsonWs r₂) (v :: acc) false
        | _ => Option.none

/-- JSON string body after the opening quote, with the strict-mode escape
set; unescaped control characters are rejected. -/
def jsonString : Nat → List Char → List Char → Option (String × List Char)
  | 0, _, _ => Option.none
  | fuel + 1, cs, acc =>
    match cs with
    | [] => Option.none
    | '"' :: rest => Option.some (⟨acc.reverse⟩, rest)
    | '\\' :: rest =>
      match rest with
      | '"' :: r => jsonString fuel r ('"' :: acc)
      | '\\' :: r => jsonString fuel r ('\\' :: acc)
      | '/' :: r => jsonString fuel r ('/' :: acc)
      | 'b' :: r => jsonString fuel r ('\x08' :: acc)
      | 'f' :: r => jsonString fuel r ('\x0c' :: acc)
      | 'n' :: r => jsonString fuel r ('\n' :: acc)
      | 'r' :: r => jsonString fuel r ('\r' :: acc)
      | 't' :: r => jsonString fuel r ('\t' :: acc)
      | 'u' :: h₁ :: h₂ :: h₃ :: h₄ :: r =>
        match hexVal h₁, hexVal h₂, hexVal h₃, hexVal h₄ with
        | Option.some a, Option.some b, Option.some c, Option.some d =>
          jsonString fuel r (Char.ofNat (((a * 16 + b) * 16 + c) * 16 + d) :: acc)
        | _, _, _, _ => Option.none
      | _ => Option.none
    | c :: rest => if c.toNat < 32 then Option.none else jsonString fuel rest (c :: acc)
end

/-- Model of Python `json.loads` on the modelled JSON fragment: parse one
value surrounded by optional whitespace, requiring full consumption. -/
def jsonLoads (s : String) : Option PyVal :=
  match jsonValue (2 * s.data.length + 2) (skipJsonWs s.data) with
  | Option.some (v, rest) => if skipJsonWs rest = [] then Option.some v else Option.none
  | Option.none => Option.none

/-- Lowercase hex digit. -/
def hexDigitChar (n : Nat) : Char := if n < 10 then Char.ofNat (48 + n) else Char.ofNat (87 + n)

/-- JSON string quoting as `json.dumps(..., ensure_ascii=False)` renders
it: escape the quote, the backslash and control characters. -/
def jsonQuoteChar (c : Char) : List Char :=
  if c = '"' then ['\\', '"']
  else if c = '\\' then ['\\', '\\']
  else if c = '\n' then ['\\', 'n']
  else if c = '\t' then ['\\', 't']
  else if c = '\r' then ['\\', 'r']
  else if c = '\x08' then ['\\', 'b']
  else if c = '\x0c' then ['\\', 'f']
  else if c.toNat < 32 then ['\\', 'u', '0', '0', hexDigitChar (c.toNat / 16), hexDigitChar (c.toNat % 16)]
  else [c]

/-- Quote a string as a JSON string literal. -/
def jsonQuote (s : String) : String := ⟨'"' :: (s.data.map jsonQuoteChar).flatten ++ ['"']⟩

/-- `n` spaces, for `json.dumps(..., indent=2)`. -/
def jsonIndent (n : Nat) : String := ⟨List.replicate n ' '⟩

mutual
/-- Model of `json.dumps(v, ensure_ascii=False, indent=2)` at indentation
level `ind`: `none` models the `TypeError` raised on a value containing a
non-serializable object. -/
def json_dumps_val : Nat → PyVal → Option String
  | _, PyVal.none => Option.some "null"
  | _, PyVal.bool true => Option.some "true"
  | _, PyVal.bool false => Option.some "false"
  | _, PyVal.int i => Option.some (intStr i)
  | _, PyVal.str s => Option.some (jsonQuote s)
  | _, PyVal.obj _ => Option.none
  | ind, PyVal.list xs =>
    match xs with
    | [] => Option.some "[]"
    | _ =>
      match json_dumps_items (ind + 2) xs with
      | Option.none => Option.none
      | Option.some items =>
        Option.some ("[\n" ++ String.intercalate ",\n" (items.map (fun it => jsonIndent (ind + 2) ++ it))
          ++ "\n" ++ jsonIndent ind ++ "]")
  | ind, PyVal.dict kvs =>
    match kvs with
    | [] => Option.some "\x7b\x7d"
    | _ =>
      match json_dumps_kvs (ind + 2) kvs with
      | Option.none => Option.none
      | Option.some items =>
        Option.some ("\x7b\n" ++ String.intercalate ",\n" (items.map (fun it => jsonIndent (ind + 2) ++ it))
          ++ "\n" ++ jsonIndent ind ++ "\x7d")

/-- Serialize list elements; fails if any element fails. -/
def json_dumps_items : Nat → List PyVal → Option (List String)
  | _, [] => Option.some []
  | ind, v :: rest =>
    match json_dumps_val ind v, json_dumps_items ind rest with
    | Option.some s, Option.some ss => Option.some (s :: ss)
    | _, _ => Option.none

/-- Serialize dict items as `"key": value`; fails if any value fails. -/
def json_dumps_kvs : Nat → List (String × PyVal) → Option (List String)
  | _, [] => Option.some []
  | ind, (k, v) :: rest =>
    match json_dumps_val ind v, json_dumps_kvs ind rest with
    | Option.some s, Option.some ss => Option.some ((jsonQuote k ++ ": " ++ s) :: ss)
    | _, _ => Option.none
end

/-- Model of `json.dumps(result, ensure_ascii=False, indent=2)` as used
by `_render_observation`. -/
def json_dumps (v : PyVal) : Option String := json_dumps_val 0 v

/-- Conversation turns: `AIMessage`, `ToolMessage` (with its tool name)
and `HumanMessage` as the loop constructs or receives them, with their
textual content. -/
inductive Message where
  | ai : String → Message
  | tool : String → String → Message
  | human : String → Message
deriving DecidableEq

/-- Role tag as `_render_history` derives it from the class name. -/
def message_role : Message → String
  | Message.ai _ => "ai"
  | Message.tool _ _ => "tool"
  | Message.human _ => "human"

/-- Textual content of a turn. -/
def message_content : Message → String
  | Message.ai c => c
  | Message.tool c _ => c
  | Message.human c => c

/-- The numbered transcript lines of `_render_history`, starting at
index `i`. -/
def render_history_lines (i : Nat) : List Message → List String
  | [] => []
  | m :: rest =>
    (⟨natChars i⟩ ++ ". [" ++ message_role m ++ "] " ++ message_content m) :: render_history_lines (i + 1) rest

/-- `_render_history`: numbered transcript (from 1), or the fixed
placeholder for an empty history. -/
def _render_history (messages : List Message) : String :=
  match messages with
  | [] => "(no prior assistant actions)"
  | _ => String.intercalate "\n" (render_history_lines 1 messages)

/-- `WorkspaceAgentConfig`. -/
structure WorkspaceAgentConfig where
  max_iterations : Nat := 8
  system_prompt : Option String := Option.none

/-- `WorkspaceAgentState` (a `TypedDict` with `total=False`): absent keys
are modelled by the initial values `none` / `0` / `PyVal.none`, matching
how every read in the source goes through `state.get`. -/
structure WorkspaceAgentState where
  messages : List Message := []
  iterations : Nat := 0
  action : Option String := Option.none
  action_input : PyVal := PyVal.none
  thought : PyVal := PyVal.none
  last_observation : Option String := Option.none
  final_response : Option String := Option.none

/-- A capability (`tool.invoke`): `Except.error e` models a raised
exception whose `str()` form is `e`. -/
abbrev Capability := PyVal → Except String PyVal

/-- The Tool Registry: an insertion-ordered mapping from action name to
capability. -/
abbrev Tools := List (String × Capability)

/-- Python `tools.get(a)`. -/
def tool_get (tools : Tools) (a : String) : Option Capability :=
  match tools with
  | [] => Option.none
  | (k, c) :: rest => if k = a then Option.some c else tool_get rest a

/-- The decode-or-fall-back tail of `_parse_plan`: decode the candidate
as JSON and return object results as the decision dict; otherwise fall
back to a `finish` decision carrying the candidate verbatim. -/
def decode_candidate (candidate : List Char) : PyDict :=
  match jsonLoads ⟨candidate⟩ with
  | Option.some (PyVal.dict kvs) => kvs
  | _ => [("action", PyVal.str "finish"), ("final_response", PyVal.str ⟨candidate⟩)]

/-- `_parse_plan`: strip the text; if a fence delimiter occurs, replace
the candidate by the first collected fence segment (if any); then decode
the candidate or fall back. -/
def _parse_plan (text : String) : PyDict :=
  let candidate := pyStrip text.data
  let candidate :=
    if hasFence candidate then
      match fenceSegments (splitFence (candidate.length + 1) candidate) with
      | [] => candidate
      | s :: _ => s
    else candidate
  decode_candidate candidate

/-- Whether the decided action passes the validation
`action in {*tools.keys(), "finish"}` (Python equality: a non-string
decision value equals no key). -/
def actionAllowed (a : PyVal) (tools : Tools) : Bool :=
  match a with
  | PyVal.str s => (tool_get tools s).isSome || s == "finish"
  | _ => false

/-- The action after `plan_node`'s validation: an invalid action is
forced to `"finish"`. -/
def validated_action (a : PyVal) (tools : Tools) : String :=
  match a with
  | PyVal.str s => if (tool_get tools s).isSome || s == "finish" then s else "finish"
  | _ => "finish"

/-- The decision dict after `plan_node`'s validation: on an invalid
action, `plan["final_response"]` is set to the existing value or (when
that is falsy) a diagnostic naming the invalid action. -/
def validated_plan (plan : PyDict) (tools : Tools) : PyDict :=
  if actionAllowed (pyGet plan "action" (PyVal.str "finish")) tools then plan
  else
    dictSet plan "final_response"
      (pyOr (pyGet plan "final_response" PyVal.none)
        (PyVal.str ("Unsupported action '" ++ pyStr (pyGet plan "action" PyVal.none)
          ++ "'. Provide the best possible summary instead.")))

/-- The terminal-answer selection of `plan_node`:
`final_text = plan.get("final_response")`, and when that is falsy,
`plan.get("message") or plan.get("input") or thought`. -/
def final_text_of (plan : PyDict) (thought : PyVal) : PyVal :=
  let ft := pyGet plan "final_response" PyVal.none
  if pyTruthy ft then ft
  else pyOr (pyGet plan "message" PyVal.none) (pyOr (pyGet plan "input" PyVal.none) thought)

/-- `plan_node` from `_make_plan_node`: render history, invoke the
planner, parse, increment the iteration count, validate the action,
append the thought/action turn, and on a terminal condition set the
final response. -/
def plan_node (planner : String → String) (config : WorkspaceAgentConfig) (tools : Tools)
    (state : WorkspaceAgentState) : WorkspaceAgentState :=
  let history_text := _render_history state.messages
  let response_text := planner history_text
  let plan0 := _parse_plan response_text
  let iterations := state.iterations + 1
  let action_input := pyGet plan0 "input" PyVal.none
  let thought := pyOr (pyGet plan0 "thought" PyVal.none) (PyVal.str response_text)
  let action := validated_action (pyGet plan0 "action" (PyVal.str "finish")) tools
  let plan := validated_plan plan0 tools
  let messages := state.messages ++ [Message.ai ("Thought: " ++ pyStr thought ++ "\nAction: " ++ action)]
  let base : WorkspaceAgentState :=
    { state with
      messages := messages, iterations := iterations, action := Option.some action,
      action_input := action_input, thought := thought }
  if action = "finish" ∨ iterations ≥ config.max_iterations then
    { base with final_response := Option.some (pyStr (final_text_of plan thought)) }
  else base

/-- `_normalise_tool_input`: `None` becomes the empty dict, strings and
mappings pass through (mappings shallow-copied), anything else verbatim. -/
def _normalise_tool_input : PyVal → PyVal
  | PyVal.none => PyVal.dict []
  | PyVal.str s => PyVal.str s
  | PyVal.dict kvs => PyVal.dict kvs
  | v => v

/-- `_render_observation`: strings pass through; otherwise serialize via
`json.dumps`, falling back to `str()` on a `TypeError`. -/
def _render_observation (result : PyVal) : String :=
  match result with
  | PyVal.str s => s
  | v =>
    match json_dumps v with
    | Option.some s => s
    | Option.none => pyStr v

/-- `TOOL_FALLBACK_MESSAGE.format(action=action)`. -/
def tool_fallback_message (action : String) : String :=
  "An internal error occurred while running tool '" ++ action ++ "'. Include any partial results and continue."

/-- `act_node` from `_make_action_node`: a falsy pending action is a
no-op; a missing capability sets a diagnostic final answer and the action
`"finish"`; otherwise invoke the capability on the normalised input,
render the result (or the failure) as an observation, append it to the
history and clear the pending action and input. -/
def act_node (tools : Tools) (state : WorkspaceAgentState) : WorkspaceAgentState :=
  match state.action with
  | Option.none => state
  | Option.some a =>
    if a = "" then state
    else
      match tool_get tools a with
      | Option.none =>
        { state with
          final_response := Option.some ("No tool named '" ++ a ++ "' is available. Summarise progress and stop."),
          action := Option.some "finish" }
      | Option.some tool =>
        let invocation := _normalise_tool_input state.action_input
        let observation :=
          match tool invocation with
          | Except.error exc => tool_fallback_message a ++ " Error: " ++ exc
          | Except.ok result => _render_observation result
        { state with
          messages := state.messages ++ [Message.tool observation a],
          action := Option.none, action_input := PyVal.none,
          last_observation := Option.some observation }

/-- The router's verdict: proceed to the `act` node or to `END`. -/
inductive PlanRoute where
  | toAct : PlanRoute
  | toEnd : PlanRoute
deriving DecidableEq

/-- The router from `_make_plan_router`: `END` on `"finish"` or an
exhausted budget, `END` on an unregistered action, otherwise `act`. -/
def plan_router (tools : Tools) (config : WorkspaceAgentConfig)
    (state : WorkspaceAgentState) : PlanRoute :=
  if state.action = Option.some "finish" ∨ state.iterations ≥ config.max_iterations then PlanRoute.toEnd
  else
    match state.action with
    | Option.some a => if (tool_get tools a).isSome then PlanRoute.toAct else PlanRoute.toEnd
    | Option.none => PlanRoute.toEnd

/-- `_initialise_tools`: build the registry from the enable flags; the
Tavily and Neo4j capabilities are silently omitted when their
construction fails (availability passed as `tavily_ok` / `neo4j_ok`). -/
def _initialise_tools (include_shell include_python include_tavily include_document include_neo4j : Bool)
    (tavily_ok neo4j_ok : Bool)
    (shell_tool python_tool tavily_tool document_tool neo4j_tool : Capability) : Tools :=
  (if include_shell then [("shell", shell_tool)] else [])
    ++ (if include_python then [("python", python_tool)] else [])
    ++ (if include_tavily && tavily_ok then [("tavily", tavily_tool)] else [])
    ++ (if include_document then [("document", document_tool)] else [])
    ++ (if include_neo4j && neo4j_ok then [("neo4j", neo4j_tool)] else [])

/-- Nodes of the compiled graph: the two named nodes and the terminal
`END` state. -/
inductive GraphNode where
  | plan : GraphNode
  | act : GraphNode
  | done : GraphNode
deriving DecidableEq

/-- One step of the compiled graph: from `plan`, run `plan_node` and
follow the conditional edges; from `act`, run `act_node` and follow the
unconditional edge back to `plan`; `END` is absorbing. -/
def stepAgent (planner : String → String) (config : WorkspaceAgentConfig) (tools : Tools) :
    GraphNode × WorkspaceAgentState → GraphNode × WorkspaceAgentState
  | (GraphNode.plan, s) =>
    let s' := plan_node planner config tools s
    match plan_router tools config s' with
    | PlanRoute.toAct => (GraphNode.act, s')
    | PlanRoute.toEnd => (GraphNode.done, s')
  | (GraphNode.act, s) => (GraphNode.plan, act_node tools s)
  | (GraphNode.done, s) => (GraphNode.done, s)

/-- Run the graph for at most `fuel` steps, stopping at `END`. -/
def execAgent (planner : String → String) (config : WorkspaceAgentConfig) (tools : Tools) :
    Nat → GraphNode × WorkspaceAgentState → GraphNode × WorkspaceAgentState
  | 0, ns => ns
  | fuel + 1, ns =>
    if ns.1 = GraphNode.done then ns
    else execAgent planner config tools fuel (stepAgent planner config tools ns)

/-- The sequence of nodes executed in at most `fuel` steps. -/
def traceAgent (planner : String → String) (config : WorkspaceAgentConfig) (tools : Tools) :
    Nat → GraphNode × WorkspaceAgentState → List GraphNode
  | 0, _ => []
  | fuel + 1, ns =>
    if ns.1 = GraphNode.done then []
    else ns.1 :: traceAgent planner config tools fuel (stepAgent planner config tools ns)

/-- The state a run is seeded with: the caller-supplied initial history,
iteration count 0, and no pending action or final answer. -/
def initialState (history : List Message) : WorkspaceAgentState := { messages := history }

/-- The configurations of the graph reachable in a run seeded with
history `h`. -/
inductive ReachesAgent (planner : String → String) (config : WorkspaceAgentConfig) (tools : Tools)
    (h : List Message) : GraphNode × WorkspaceAgentState → Prop where
  | start : ReachesAgent planner config tools h (GraphNode.plan, initialState h)
  | next : ∀ ns, ReachesAgent planner config tools h ns →
      ReachesAgent planner config tools h (stepAgent planner config tools ns)

section Helpers

/-- `String.append` acts as list append on the character data. -/
theorem str_data_append (a b : String) : (a ++ b).data = a.data ++ b.data := by
  cases a
  cases b
  rfl

/-- A string with nonempty data on the left of an append is nonempty. -/
theorem str_append_ne_empty_left (a b : String) (h : a.data ≠ []) : a ++ b ≠ "" := by
  intro hc
  apply h
  have hd : (a ++ b).data = ("" : String).data := by rw [hc]
  rw [str_data_append] at hd
  exact (List.append_eq_nil.mp hd).1

/-- `natCharsAux` with nonzero fuel is nonempty. -/
theorem natCharsAux_ne_nil (fuel n : Nat) (h : fuel ≠ 0) : natCharsAux fuel n ≠ [] := by
  cases fuel with
  | zero => exact absurd rfl h
  | succ f =>
    simp only [natCharsAux]
    split
    · simp
    · simp

/-- Decimal digit lists are nonempty. -/
theorem natChars_ne_nil (n : Nat) : natChars n ≠ [] := natCharsAux_ne_nil (n + 1) n (Nat.succ_ne_zero n)

/-- `str()` of an integer is nonempty. -/
theorem intStr_ne_empty (i : Int) : intStr i ≠ "" := by
  unfold intStr
  split
  · intro hc
    apply natChars_ne_nil i.natAbs
    have := congrArg String.data hc
    simp at this
  · intro hc
    apply natChars_ne_nil i.natAbs
    have := congrArg String.data hc
    simpa using this

/-- A truthy value free of opaque objects has a nonempty `str()` form. -/
theorem pyStr_ne_empty_of_truthy (v : PyVal) (hobj : hasObj v = false) (ht : pyTruthy v = true) :
    pyStr v ≠ "" := by
  cases v with
  | none => simp [pyTruthy] at ht
  | bool b =>
    cases b with
    | false => simp [pyTruthy] at ht
    | true => simp [pyStr, pyRepr]
  | int i =>
    simpa [pyStr, pyRepr] using intStr_ne_empty i
  | str s =>
    simp only [pyTruthy, Bool.not_eq_true', beq_eq_false_iff_ne, ne_eq] at ht
    simpa [pyStr] using ht
  | list xs =>
    exact str_append_ne_empty_left _ _ (by simp)
  | dict kvs =>
    exact str_append_ne_empty_left _ _ (by simp)
  | obj s => simp [hasObj] at hobj

/-- Reading a key of an object-free dict (with an object-free default)
yields an object-free value. -/
theorem pyGet_objFree (d : PyDict) (k : String) (dflt : PyVal)
    (hd : hasObjKVs d = false) (hdflt : hasObj dflt = false) : hasObj (pyGet d k dflt) = false := by
  induction d with
  | nil => simpa [pyGet]
  | cons kv rest ih =>
    obtain ⟨k', v⟩ := kv
    simp only [hasObjKVs, Bool.or_eq_false_iff] at hd
    simp only [pyGet]
    split
    · exact hd.1
    · exact ih hd.2

/-- Setting an object-free value in an object-free dict keeps it
object-free. -/
theorem dictSet_objFree (d : PyDict) (k : String) (v : PyVal)
    (hd : hasObjKVs d = false) (hv : hasObj v = false) : hasObjKVs (dictSet d k v) = false := by
  induction d with
  | nil => simpa [dictSet, hasObjKVs]
  | cons kv rest ih =>
    obtain ⟨k', v'⟩ := kv
    simp only [hasObjKVs, Bool.or_eq_false_iff] at hd
    simp only [dictSet]
    split
    · simp [hasObjKVs, hv, hd.2]
    · simp [hasObjKVs, hd.1, ih hd.2]

/-- `pyOr` of object-free values is object-free. -/
theorem pyOr_objFree (a b : PyVal) (ha : hasObj a = false) (hb : hasObj b = false) :
    hasObj (pyOr a b) = false := by
  unfold pyOr
  split
  · exact ha
  · exact hb

/-- Reading a set key gives back the value just set. -/
theorem pyGet_dictSet_same (d : PyDict) (k : String) (v dflt : PyVal) :
    pyGet (dictSet d k v) k dflt = v := by
  induction d with
  | nil => simp [dictSet, pyGet]
  | cons kv rest ih =>
    obtain ⟨k', v'⟩ := kv
    simp only [dictSet]
    split
    · simp [pyGet]
    · simp [pyGet, *]

/-- Reading another key is unaffected by `dictSet`. -/
theorem pyGet_dictSet_other (d : PyDict) (k k' : String) (v dflt : PyVal) (h : k' ≠ k) :
    pyGet (dictSet d k v) k' dflt = pyGet d k' dflt := by
  induction d with
  | nil => simp [dictSet, pyGet, Ne.symm h]
  | cons kv rest ih =>
    obtain ⟨k₀, v₀⟩ := kv
    simp only [dictSet]
    split
    · rename_i hk
      subst hk
      simp [pyGet, h, Ne.symm h]
    · simp only [pyGet]
      split
      · rfl
      · exact ih

end Helpers


theorem jsonNumber_objFree (cs : List Char) (v : PyVal) (rest : List Char)
    (h : jsonNumber cs = Option.some (v, rest)) : hasObj v = false := by
  rw [jsonNumber.eq_def] at h
  simp only [] at h
  repeat' split at h
  all_goals simp at h
  all_goals (rw [← h.1]; rfl)

theorem hasObjList_append (a b : List PyVal) :
    hasObjList (a ++ b) = (hasObjList a || hasObjList b) := by
  induction a with
  | nil => simp [hasObjList]
  | cons v rest ih => simp [hasObjList, ih, Bool.or_assoc]

theorem hasObjList_reverse (xs : List PyVal) : hasObjList xs.reverse = hasObjList xs := by
  induction xs with
  | nil => rfl
  | cons v rest ih => simp [hasObjList, List.reverse_cons, hasObjList_append, ih, Bool.or_comm]

set_option maxHeartbeats 1600000 in
mutual
theorem jsonValue_objFree : ∀ (fuel : Nat) (cs : List Char) (v : PyVal) (rest : List Char),
    jsonValue fuel cs = Option.some (v, rest) → hasObj v = false
  | 0, cs, v, rest => by
    intro h
    simp [jsonValue] at h
  | fuel + 1, cs, v, rest => by
    intro h
    simp only [jsonValue] at h
    split at h
    · exact jsonMembers_objFree fuel _ [] true v rest rfl h
    · exact jsonElements_objFree fuel _ [] true v rest rfl h
    · split at h
      · simp only [Option.some.injEq, Prod.mk.injEq] at h
        rw [← h.1]
        rfl
      · simp at h
    · simp only [Option.some.injEq, Prod.mk.injEq] at h
      rw [← h.1]
      rfl
    · simp only [Option.some.injEq, Prod.mk.injEq] at h
      rw [← h.1]
      rfl
    · simp only [Option.some.injEq, Prod.mk.injEq] at h
      rw [← h.1]
      rfl
    · exact jsonNumber_objFree _ v rest h

theorem jsonMembers_objFree : ∀ (fuel : Nat) (cs : List Char) (acc : PyDict) (first : Bool)
    (v : PyVal) (rest : List Char), hasObjKVs acc = false →
    jsonMembers fuel cs acc first = Option.some (v, rest) → hasObj v = false
  | 0, cs, acc, first, v, rest => by
    intro hacc h
    simp [jsonMembers] at h
  | fuel + 1, cs, acc, first, v, rest => by
    intro hacc h
    simp only [jsonMembers] at h
    split at h
    · split at h
      · simp only [Option.some.injEq, Prod.mk.injEq] at h
        rw [← h.1]
        simpa [hasObj] using hacc
      · simp at h
    · split at h
      · simp at h
      · split at h
        · split at h
          · simp at h
          · split at h
            · simp only [Option.some.injEq, Prod.mk.injEq] at h
              rw [← h.1]
              simp only [hasObj]
              exact dictSet_objFree _ _ _ hacc (jsonValue_objFree fuel _ _ _ (by assumption))
            · exact jsonMembers_objFree fuel _ _ false v rest
                (dictSet_objFree _ _ _ hacc (jsonValue_objFree fuel _ _ _ (by assumption))) h
            · simp at h
        · simp at h
    · simp at h

theorem jsonElements_objFree : ∀ (fuel : Nat) (cs : List Char) (acc : List PyVal) (first : Bool)
    (v : PyVal) (rest : List Char), hasObjList acc = false →
    jsonElements fuel cs acc first = Option.some (v, rest) → hasObj v = false
  | 0, cs, acc, first, v, rest => by
    intro hacc h
    simp [jsonElements] at h
  | fuel + 1, cs, acc, first, v, rest => by
    intro hacc h
    simp only [jsonElements] at h
    split at h
    · split at h
      · simp only [Option.some.injEq, Prod.mk.injEq] at h
        rw [← h.1]
        simpa [hasObj, hasObjList_reverse] using hacc
      · simp at h
    · split at h
      · simp at h
      · split at h
        · simp only [Option.some.injEq, Prod.mk.injEq] at h
          rw [← h.1]
          simp only [hasObj]
          rw [hasObjList_reverse]
          simp [hasObjList, hacc, jsonValue_objFree fuel _ _ _ (by assumption)]
        · exact jsonElements_objFree fuel _ _ false v rest
            (by simp [hasObjList, hacc, jsonValue_objFree fuel _ _ _ (by assumption)]) h
        · simp at h
end

/-- `jsonLoads` only produces object-free values. -/
theorem jsonLoads_objFree (s : String) (v : PyVal) (h : jsonLoads s = Option.some v) :
    hasObj v = false := by
  unfold jsonLoads at h
  cases hp : jsonValue (2 * s.data.length + 2) (skipJsonWs s.data) with
  | none => rw [hp] at h; simp at h
  | some p =>
    obtain ⟨v₁, r₁⟩ := p
    rw [hp] at h
    by_cases hr : skipJsonWs r₁ = []
    · simp only [hr, if_pos, Option.some.injEq] at h
      rw [← h]
      exact jsonValue_objFree _ _ _ _ hp
    · simp [hr] at h

/-- Decoded candidates are object-free. -/
theorem decode_candidate_objFree (candidate : List Char) :
    hasObjKVs (decode_candidate candidate) = false := by
  unfold decode_candidate
  split
  · rename_i kvs hkvs
    have := jsonLoads_objFree _ _ hkvs
    simpa [hasObj] using this
  · simp [hasObjKVs, hasObj]

/-- The decision dict produced by `_parse_plan` is object-free. -/
theorem parse_plan_objFree (text : String) : hasObjKVs (_parse_plan text) = false := by
  simp only [_parse_plan]
  exact decode_candidate_objFree _

section NodeLemmas

/-- The validated decision dict stays object-free. -/
theorem validated_plan_objFree (plan : PyDict) (tools : Tools)
    (h : hasObjKVs plan = false) : hasObjKVs (validated_plan plan tools) = false := by
  unfold validated_plan
  split
  · exact h
  · exact dictSet_objFree _ _ _ h
      (pyOr_objFree _ _ (pyGet_objFree _ _ _ h rfl) rfl)

/-- The terminal answer is object-free when the decision and thought are. -/
theorem final_text_objFree (plan : PyDict) (thought : PyVal)
    (hp : hasObjKVs plan = false) (ht : hasObj thought = false) :
    hasObj (final_text_of plan thought) = false := by
  simp only [final_text_of]
  split
  · exact pyGet_objFree _ _ _ hp rfl
  · exact pyOr_objFree _ _ (pyGet_objFree _ _ _ hp rfl)
      (pyOr_objFree _ _ (pyGet_objFree _ _ _ hp rfl) ht)

/-- The `str()` form of the terminal answer is nonempty provided the
decision dict is object-free and the thought has a nonempty `str()`. -/
theorem final_text_nonempty (plan : PyDict) (thought : PyVal)
    (hp : hasObjKVs plan = false)
    (ht : pyStr thought ≠ "") : pyStr (final_text_of plan thought) ≠ "" := by
  simp only [final_text_of]
  split
  · rename_i htr
    exact pyStr_ne_empty_of_truthy _ (pyGet_objFree _ _ _ hp rfl) htr
  · unfold pyOr
    split
    · rename_i htr
      exact pyStr_ne_empty_of_truthy _ (pyGet_objFree _ _ _ hp rfl) htr
    · split
      · rename_i htr
        exact pyStr_ne_empty_of_truthy _ (pyGet_objFree _ _ _ hp rfl) htr
      · exact ht

/-- The thought `plan.get("thought") or response_text` is object-free
when the decision is. -/
theorem thought_objFree (plan : PyDict) (resp : String) (hp : hasObjKVs plan = false) :
    hasObj (pyOr (pyGet plan "thought" PyVal.none) (PyVal.str resp)) = false :=
  pyOr_objFree _ _ (pyGet_objFree _ _ _ hp rfl) rfl

/-- The thought has a nonempty `str()` form when the raw response is
nonempty. -/
theorem thought_nonempty (plan : PyDict) (resp : String)
    (hp : hasObjKVs plan = false) (hr : resp ≠ "") :
    pyStr (pyOr (pyGet plan "thought" PyVal.none) (PyVal.str resp)) ≠ "" := by
  unfold pyOr
  split
  · rename_i htr
    exact pyStr_ne_empty_of_truthy _ (pyGet_objFree _ _ _ hp rfl) htr
  · simpa [pyStr] using hr

/-- `plan_node` increments the iteration counter by exactly one. -/
theorem plan_node_iterations (planner : String → String) (config : WorkspaceAgentConfig)
    (tools : Tools) (s : WorkspaceAgentState) :
    (plan_node planner config tools s).iterations = s.iterations + 1 := by
  simp only [plan_node]
  split <;> rfl

/-- The action stored by `plan_node` is the validated action of the
parsed decision. -/
theorem plan_node_action (planner : String → String) (config : WorkspaceAgentConfig)
    (tools : Tools) (s : WorkspaceAgentState) :
    (plan_node planner config tools s).action =
      Option.some (validated_action
        (pyGet (_parse_plan (planner (_render_history s.messages))) "action" (PyVal.str "finish"))
        tools) := by
  simp only [plan_node]
  split <;> rfl

/-- The validated action is `"finish"` or a registry key. -/
theorem validated_action_cases (a : PyVal) (tools : Tools) :
    validated_action a tools = "finish" ∨ (tool_get tools (validated_action a tools)).isSome = true := by
  cases a with
  | str s =>
    simp only [validated_action]
    split
    · rename_i hcond
      rcases Bool.or_eq_true_iff.mp hcond with hs | hf
      · exact Or.inr hs
      · exact Or.inl (eq_of_beq hf)
    · exact Or.inl rfl
  | none => exact Or.inl rfl
  | bool b => exact Or.inl rfl
  | int i => exact Or.inl rfl
  | list xs => exact Or.inl rfl
  | dict kvs => exact Or.inl rfl
  | obj o => exact Or.inl rfl

/-- On a terminal condition, `plan_node` stores the selected final
answer. -/
theorem plan_node_final_of_terminal (planner : String → String) (config : WorkspaceAgentConfig)
    (tools : Tools) (s : WorkspaceAgentState)
    (hterm : validated_action
        (pyGet (_parse_plan (planner (_render_history s.messages))) "action" (PyVal.str "finish"))
        tools = "finish" ∨ s.iterations + 1 ≥ config.max_iterations) :
    (plan_node planner config tools s).final_response =
      Option.some (pyStr (final_text_of
        (validated_plan (_parse_plan (planner (_render_history s.messages))) tools)
        (pyOr (pyGet (_parse_plan (planner (_render_history s.messages))) "thought" PyVal.none)
          (PyVal.str (planner (_render_history s.messages)))))) := by
  simp only [plan_node]
  rw [if_pos hterm]

/-- Off the terminal condition, `plan_node` leaves the final answer as it
was. -/
theorem plan_node_final_of_not_terminal (planner : String → String) (config : WorkspaceAgentConfig)
    (tools : Tools) (s : WorkspaceAgentState)
    (hterm : ¬(validated_action
        (pyGet (_parse_plan (planner (_render_history s.messages))) "action" (PyVal.str "finish"))
        tools = "finish" ∨ s.iterations + 1 ≥ config.max_iterations)) :
    (plan_node planner config tools s).final_response = s.final_response := by
  simp only [plan_node]
  rw [if_neg hterm]

/-- `act_node` never changes the iteration counter. -/
theorem act_node_iterations (tools : Tools) (s : WorkspaceAgentState) :
    (act_node tools s).iterations = s.iterations := by
  unfold act_node
  split
  · rfl
  · split
    · rfl
    · split
      · rfl
      · rfl

/-- The router terminates once the iteration budget is reached,
regardless of the decided action. -/
theorem plan_router_end_of_budget (tools : Tools) (config : WorkspaceAgentConfig)
    (s : WorkspaceAgentState) (h : s.iterations ≥ config.max_iterations) :
    plan_router tools config s = PlanRoute.toEnd := by
  unfold plan_router
  rw [if_pos (Or.inr h)]

/-- What routing to `act` tells us: a registered, non-`finish` pending
action and remaining budget. -/
theorem plan_router_toAct_elim (tools : Tools) (config : WorkspaceAgentConfig)
    (s : WorkspaceAgentState) (h : plan_router tools config s = PlanRoute.toAct) :
    s.iterations < config.max_iterations ∧
      ∃ a, s.action = Option.some a ∧ a ≠ "finish" ∧ (tool_get tools a).isSome = true := by
  unfold plan_router at h
  split at h
  · exact absurd h (by simp)
  · rename_i hcond
    push_neg at hcond
    split at h
    · rename_i a ha
      split at h
      · rename_i hmem
        refine ⟨hcond.2, a, ha, ?_, hmem⟩
        intro hfin
        exact hcond.1 (by rw [ha, hfin])
      · exact absurd h (by simp)
    · exact absurd h (by simp)

/-- When `plan_node`'s result is routed to `END`, the terminal condition
of `plan_node` itself held (the router's unregistered-action branch is
unreachable after validation). -/
theorem plan_router_end_after_plan (planner : String → String) (config : WorkspaceAgentConfig)
    (tools : Tools) (s : WorkspaceAgentState)
    (h : plan_router tools config (plan_node planner config tools s) = PlanRoute.toEnd) :
    validated_action
        (pyGet (_parse_plan (planner (_render_history s.messages))) "action" (PyVal.str "finish"))
        tools = "finish" ∨ s.iterations + 1 ≥ config.max_iterations := by
  by_contra hc
  push_neg at hc
  obtain ⟨hfin, hlt⟩ := hc
  unfold plan_router at h
  rw [plan_node_action] at h
  rw [plan_node_iterations] at h
  rcases validated_action_cases
      (pyGet (_parse_plan (planner (_render_history s.messages))) "action" (PyVal.str "finish"))
      tools with hf | hmem
  · exact hfin hf
  · rw [if_neg] at h
    · simp only [hmem, if_true] at h
      exact absurd h (by simp)
    · intro hor
      rcases hor with h₁ | h₂
      · exact hfin (by simpa using h₁)
      · exact absurd h₂ (Nat.not_le.mpr hlt)

end NodeLemmas

section ClaimHelpers

/-- An invalid decided action is forced to `"finish"`. -/
theorem validated_action_of_invalid (a : PyVal) (tools : Tools)
    (h : actionAllowed a tools = false) : validated_action a tools = "finish" := by
  cases a with
  | str s =>
    simp only [actionAllowed] at h
    simp [validated_action, h]
  | none => rfl
  | bool b => rfl
  | int i => rfl
  | list xs => rfl
  | dict kvs => rfl
  | obj o => rfl

/-- The diagnostic message for an invalid action is truthy. -/
theorem diag_truthy (x : String) :
    pyTruthy (PyVal.str ("Unsupported action '" ++ x
      ++ "'. Provide the best possible summary instead.")) = true := by
  simp only [pyTruthy, Bool.not_eq_true', beq_eq_false_iff_ne, ne_eq]
  apply str_append_ne_empty_left
  rw [str_data_append]
  simp

/-- `tool_get` over an appended registry tries the left part first. -/
theorem tool_get_append (t₁ t₂ : Tools) (a : String) :
    tool_get (t₁ ++ t₂) a =
      (match tool_get t₁ a with
       | Option.some c => Option.some c
       | Option.none => tool_get t₂ a) := by
  induction t₁ with
  | nil => simp [tool_get]
  | cons kc rest ih =>
    obtain ⟨k, c⟩ := kc
    simp only [List.cons_append, tool_get]
    split
    · rfl
    · exact ih

/-- A singleton registry segment guarded by a flag never resolves the
empty action name (all built-in tool names are nonempty). -/
theorem tool_get_flag_empty (b : Bool) (k : String) (c : Capability) (hk : k ≠ "") :
    tool_get (if b then [(k, c)] else []) "" = Option.none := by
  cases b <;> simp [tool_get, hk]

/-- A resolvable action name in a built registry is nonempty. -/
theorem init_key_ne_empty (f₁ f₂ f₃ f₄ f₅ t n : Bool)
    (c₁ c₂ c₃ c₄ c₅ : Capability) (a : String) (cap : Capability)
    (h : tool_get (_initialise_tools f₁ f₂ f₃ f₄ f₅ t n c₁ c₂ c₃ c₄ c₅) a = Option.some cap) :
    a ≠ "" := by
  intro ha
  subst ha
  unfold _initialise_tools at h
  rw [tool_get_append, tool_get_append, tool_get_append, tool_get_append] at h
  rw [tool_get_flag_empty f₁ "shell" c₁ (by decide)] at h
  rw [tool_get_flag_empty f₂ "python" c₂ (by decide)] at h
  rw [tool_get_flag_empty (f₃ && t) "tavily" c₃ (by decide)] at h
  rw [tool_get_flag_empty f₄ "document" c₄ (by decide)] at h
  rw [tool_get_flag_empty (f₅ && n) "neo4j" c₅ (by decide)] at h
  simp at h

mutual
/-- Serialization succeeds exactly on object-free values. -/
theorem json_dumps_val_isSome : ∀ (ind : Nat) (v : PyVal),
    (json_dumps_val ind v).isSome = !hasObj v
  | _, PyVal.none => by simp [json_dumps_val, hasObj]
  | _, PyVal.bool true => by simp [json_dumps_val, hasObj]
  | _, PyVal.bool false => by simp [json_dumps_val, hasObj]
  | _, PyVal.int i => by simp [json_dumps_val, hasObj]
  | _, PyVal.str s => by simp [json_dumps_val, hasObj]
  | _, PyVal.obj o => by simp [json_dumps_val, hasObj]
  | ind, PyVal.list [] => by simp [json_dumps_val, hasObj, hasObjList]
  | ind, PyVal.list (v :: rest) => by
    have hit := json_dumps_items_isSome (ind + 2) (v :: rest)
    simp only [json_dumps_val, hasObj]
    cases h : json_dumps_items (ind + 2) (v :: rest) with
    | none => rw [h] at hit; simpa using hit.symm
    | some items => rw [h] at hit; simpa using hit.symm
  | ind, PyVal.dict [] => by simp [json_dumps_val, hasObj, hasObjKVs]
  | ind, PyVal.dict (kv :: rest) => by
    have hit := json_dumps_kvs_isSome (ind + 2) (kv :: rest)
    simp only [json_dumps_val, hasObj]
    cases h : json_dumps_kvs (ind + 2) (kv :: rest) with
    | none => rw [h] at hit; simpa using hit.symm
    | some items => rw [h] at hit; simpa using hit.symm

/-- Elementwise serialization succeeds exactly on object-free lists. -/
theorem json_dumps_items_isSome : ∀ (ind : Nat) (xs : List PyVal),
    (json_dumps_items ind xs).isSome = !hasObjList xs
  | _, [] => by simp [json_dumps_items, hasObjList]
  | ind, v :: rest => by
    have hv := json_dumps_val_isSome ind v
    have hr := json_dumps_items_isSome ind rest
    simp only [json_dumps_items, hasObjList]
    cases h₁ : json_dumps_val ind v with
    | none =>
      rw [h₁] at hv
      simp only [Option.isSome_none] at hv
      simp [← hv]
    | some s =>
      rw [h₁] at hv
      simp only [Option.isSome_some] at hv
      cases h₂ : json_dumps_items ind rest with
      | none =>
        rw [h₂] at hr
        simp only [Option.isSome_none] at hr
        simp [← hv, ← hr]
      | some ss =>
        rw [h₂] at hr
        simp only [Option.isSome_some] at hr
        simp [← hv, ← hr]

/-- Itemwise serialization succeeds exactly on object-free dicts. -/
theorem json_dumps_kvs_isSome : ∀ (ind : Nat) (kvs : List (String × PyVal)),
    (json_dumps_kvs ind kvs).isSome = !hasObjKVs kvs
  | _, [] => by simp [json_dumps_kvs, hasObjKVs]
  | ind, (k, v) :: rest => by
    have hv := json_dumps_val_isSome ind v
    have hr := json_dumps_kvs_isSome ind rest
    simp only [json_dumps_kvs, hasObjKVs]
    cases h₁ : json_dumps_val ind v with
    | none =>
      rw [h₁] at hv
      simp only [Option.isSome_none] at hv
      simp [← hv]
    | some s =>
      rw [h₁] at hv
      simp only [Option.isSome_some] at hv
      cases h₂ : json_dumps_kvs ind rest with
      | none =>
        rw [h₂] at hr
        simp only [Option.isSome_none] at hr
        simp [← hv, ← hr]
      | some ss =>
        rw [h₂] at hr
        simp only [Option.isSome_some] at hr
        simp [← hv, ← hr]
end

end ClaimHelpers

/-- C3: for every Plan Step whose decided action is neither `"finish"`
nor a key of the Tool Registry (in particular under an empty registry),
the action is forced to `"finish"`, and when the decision carried no
(truthy) final answer, a diagnostic message naming the invalid action is
substituted as the final answer. -/
theorem claim_C3 (planner : String → String) (config : WorkspaceAgentConfig) (tools : Tools)
    (state : WorkspaceAgentState)
    (hinvalid : actionAllowed
      (pyGet (_parse_plan (planner (_render_history state.messages))) "action" (PyVal.str "finish"))
      tools = false) :
    (plan_node planner config tools state).action = Option.some "finish" ∧
    (pyTruthy (pyGet (_parse_plan (planner (_render_history state.messages)))
        "final_response" PyVal.none) = false →
      (plan_node planner config tools state).final_response =
        Option.some ("Unsupported action '"
          ++ pyStr (pyGet (_parse_plan (planner (_render_history state.messages))) "action" PyVal.none)
          ++ "'. Provide the best possible summary instead.")) := by
  have hva := validated_action_of_invalid _ tools hinvalid
  constructor
  · rw [plan_node_action, hva]
  · intro hfr
    rw [plan_node_final_of_terminal planner config tools state (Or.inl hva)]
    have hvp : validated_plan (_parse_plan (planner (_render_history state.messages))) tools =
        dictSet (_parse_plan (planner (_render_history state.messages))) "final_response"
          (pyOr (pyGet (_parse_plan (planner (_render_history state.messages)))
              "final_response" PyVal.none)
            (PyVal.str ("Unsupported action '"
              ++ pyStr (pyGet (_parse_plan (planner (_render_history state.messages)))
                  "action" PyVal.none)
              ++ "'. Provide the best possible summary instead."))) := by
      unfold validated_plan
      rw [if_neg]
      simp [hinvalid]
    rw [hvp]
    simp only [final_text_of]
    rw [pyGet_dictSet_same]
    have hor : pyOr (pyGet (_parse_plan (planner (_render_history state.messages)))
          "final_response" PyVal.none)
        (PyVal.str ("Unsupported action '"
          ++ pyStr (pyGet (_parse_plan (planner (_render_history state.messages)))
              "action" PyVal.none)
          ++ "'. Provide the best possible summary instead.")) =
        PyVal.str ("Unsupported action '"
          ++ pyStr (pyGet (_parse_plan (planner (_render_history state.messages)))
              "action" PyVal.none)
          ++ "'. Provide the best possible summary instead.") := by
      unfold pyOr
      rw [if_neg]
      simp [hfr]
    rw [hor, if_pos (diag_truthy _)]
    rfl

/-- Planner stub for the C3 witness: an unregistered action. -/
def plannerC3 : String → String :=
  fun _ => "\x7b\"action\": \"search\", \"thought\": \"need web\"\x7d"

/-- The default configuration (`max_iterations = 8`). -/
def defaultConfig : WorkspaceAgentConfig := {}

/-- Witness for C3: with no registered tools and a planner choosing
`"search"`, the action is corrected and the diagnostic becomes the final
answer. -/
theorem claim_C3_wit :
    (plan_node plannerC3 defaultConfig [] (initialState [])).action = Option.some "finish" ∧
    (plan_node plannerC3 defaultConfig [] (initialState [])).final_response =
      Option.some "Unsupported action 'search'. Provide the best possible summary instead." :=
  ⟨(claim_C3 plannerC3 defaultConfig [] (initialState []) (by decide)).1,
   (claim_C3 plannerC3 defaultConfig [] (initialState []) (by decide)).2 (by decide)⟩

/-- C4: for every Act Step whose capability invocation raises, the error
is not propagated: the step produces the fallback observation naming the
failing action and carrying the error detail, appends it to history as a
tool turn, clears the pending action and input, and the graph continues
to the Plan node. -/
theorem claim_C4 (tools : Tools) (state : WorkspaceAgentState) (a : String) (cap : Capability)
    (e : String) (ha : state.action = Option.some a) (hne : a ≠ "")
    (hcap : tool_get tools a = Option.some cap)
    (herr : cap (_normalise_tool_input state.action_input) = Except.error e) :
    act_node tools state =
      { state with
        messages := state.messages
          ++ [Message.tool (tool_fallback_message a ++ " Error: " ++ e) a],
        action := Option.none, action_input := PyVal.none,
        last_observation := Option.some (tool_fallback_message a ++ " Error: " ++ e) } ∧
    (∀ (planner : String → String) (config : WorkspaceAgentConfig),
      stepAgent planner config tools (GraphNode.act, state) =
        (GraphNode.plan, act_node tools state)) := by
  constructor
  · unfold act_node
    rw [ha]
    simp [hne, hcap, herr]
  · intro planner config
    rfl

/-- A capability that always fails, for the C4 witness. -/
def failCap : Capability := fun _ => Except.error "boom"

/-- A state with the failing action pending, for the C4 witness. -/
def stateC4 : WorkspaceAgentState :=
  { initialState [] with action := Option.some "f", action_input := PyVal.str "x" }

/-- Witness for C4 at a concrete failing capability. -/
theorem claim_C4_wit :
    act_node [("f", failCap)] stateC4 =
      { stateC4 with
        messages := [Message.tool
          "An internal error occurred while running tool 'f'. Include any partial results and continue. Error: boom" "f"],
        action := Option.none, action_input := PyVal.none,
        last_observation := Option.some
          "An internal error occurred while running tool 'f'. Include any partial results and continue. Error: boom" } ∧
    (∀ (planner : String → String) (config : WorkspaceAgentConfig),
      stepAgent planner config [("f", failCap)] (GraphNode.act, stateC4) =
        (GraphNode.plan, act_node [("f", failCap)] stateC4)) :=
  claim_C4 [("f", failCap)] stateC4 "f" failCap "boom" rfl (by decide) rfl rfl

/-- C5: for every Plan Step reaching a terminal condition, the final
answer is selected by the precedence final-answer field, then message
field, then raw input, then the reasoning text (the first truthy one, in
Python's sense), and is coerced to a string. -/
theorem claim_C5 (planner : String → String) (config : WorkspaceAgentConfig) (tools : Tools)
    (state : WorkspaceAgentState)
    (hterm : validated_action
        (pyGet (_parse_plan (planner (_render_history state.messages))) "action" (PyVal.str "finish"))
        tools = "finish" ∨ state.iterations + 1 ≥ config.max_iterations) :
    (pyTruthy (pyGet (validated_plan (_parse_plan (planner (_render_history state.messages))) tools)
        "final_response" PyVal.none) = true →
      (plan_node planner config tools state).final_response =
        Option.some (pyStr (pyGet
          (validated_plan (_parse_plan (planner (_render_history state.messages))) tools)
          "final_response" PyVal.none))) ∧
    (pyTruthy (pyGet (validated_plan (_parse_plan (planner (_render_history state.messages))) tools)
        "final_response" PyVal.none) = false →
     pyTruthy (pyGet (validated_plan (_parse_plan (planner (_render_history state.messages))) tools)
        "message" PyVal.none) = true →
      (plan_node planner config tools state).final_response =
        Option.some (pyStr (pyGet
          (validated_plan (_parse_plan (planner (_render_history state.messages))) tools)
          "message" PyVal.none))) ∧
    (pyTruthy (pyGet (validated_plan (_parse_plan (planner (_render_history state.messages))) tools)
        "final_response" PyVal.none) = false →
     pyTruthy (pyGet (validated_plan (_parse_plan (planner (_render_history state.messages))) tools)
        "message" PyVal.none) = false →
     pyTruthy (pyGet (validated_plan (_parse_plan (planner (_render_history state.messages))) tools)
        "input" PyVal.none) = true →
      (plan_node planner config tools state).final_response =
        Option.some (pyStr (pyGet
          (validated_plan (_parse_plan (planner (_render_history state.messages))) tools)
          "input" PyVal.none))) ∧
    (pyTruthy (pyGet (validated_plan (_parse_plan (planner (_render_history state.messages))) tools)
        "final_response" PyVal.none) = false →
     pyTruthy (pyGet (validated_plan (_parse_plan (planner (_render_history state.messages))) tools)
        "message" PyVal.none) = false →
     pyTruthy (pyGet (validated_plan (_parse_plan (planner (_render_history state.messages))) tools)
        "input" PyVal.none) = false →
      (plan_node planner config tools state).final_response =
        Option.some (pyStr (pyOr
          (pyGet (_parse_plan (planner (_render_history state.messages))) "thought" PyVal.none)
          (PyVal.str (planner (_render_history state.messages)))))) := by
  rw [plan_node_final_of_terminal planner config tools state hterm]
  refine ⟨?_, ?_, ?_, ?_⟩
  · intro h₁
    simp only [final_text_of]
    rw [if_pos h₁]
  · intro h₁ h₂
    simp only [final_text_of]
    rw [if_neg (by simp [h₁])]
    unfold pyOr
    rw [if_pos h₂]
  · intro h₁ h₂ h₃
    simp only [final_text_of]
    rw [if_neg (by simp [h₁])]
    unfold pyOr
    rw [if_neg (by simp [h₂]), if_pos h₃]
  · intro h₁ h₂ h₃
    simp only [final_text_of]
    rw [if_neg (by simp [h₁])]
    unfold pyOr
    rw [if_neg (by simp [h₂]), if_neg (by simp [h₃])]

/-- Planner stub for the C5 witness: a finish decision with only a
message field. -/
def plannerC5 : String → String :=
  fun _ => "\x7b\"action\": \"finish\", \"message\": \"msg here\"\x7d"

/-- Witness for C5: with no final-answer field, the message field is
selected. -/
theorem claim_C5_wit :
    (plan_node plannerC5 defaultConfig [] (initialState [])).final_response =
      Option.some "msg here" :=
  ((claim_C5 plannerC5 defaultConfig [] (initialState []) (Or.inl (by decide))).2.1
    (by decide) (by decide))

/-- C9: rendering a capability result is total: strings pass through
unchanged, any other value is serialized via `json.dumps` — which
succeeds exactly when the value is free of non-serializable objects —
and when serialization is impossible the value's default `str()` form is
the fallback. -/
theorem claim_C9 (result : PyVal) :
    ((json_dumps result).isSome = !hasObj result) ∧
    (∀ s, result = PyVal.str s → _render_observation result = s) ∧
    ((∀ s, result ≠ PyVal.str s) → ∀ t, json_dumps result = Option.some t →
      _render_observation result = t) ∧
    ((∀ s, result ≠ PyVal.str s) → json_dumps result = Option.none →
      _render_observation result = pyStr result) := by
  refine ⟨json_dumps_val_isSome 0 result, ?_, ?_, ?_⟩
  · intro s hs
    subst hs
    rfl
  · intro hns t ht
    cases result with
    | str s => exact absurd rfl (hns s)
    | none => simp [_render_observation, ht]
    | bool b => cases b <;> simp [_render_observation, ht]
    | int i => simp [_render_observation, ht]
    | list xs => simp [_render_observation, ht]
    | dict kvs => simp [_render_observation, ht]
    | obj o => simp [_render_observation, ht]
  · intro hns ht
    cases result with
    | str s => exact absurd rfl (hns s)
    | none => simp [_render_observation, ht]
    | bool b => cases b <;> simp [_render_observation, ht]
    | int i => simp [_render_observation, ht]
    | list xs => simp [_render_observation, ht]
    | dict kvs => simp [_render_observation, ht]
    | obj o => simp [_render_observation, ht]

/-- Witness for C9 at a non-serializable object: `json.dumps` fails and
the `str()` fallback is used. -/
theorem claim_C9_wit :
    json_dumps (PyVal.obj "MyObject instance") = Option.none ∧
    _render_observation (PyVal.obj "MyObject instance") = "MyObject instance" :=
  ⟨rfl, (claim_C9 (PyVal.obj "MyObject instance")).2.2.2 (by intro s h; cases h) rfl⟩

/-- C10: an Act Step over a registry built by `_initialise_tools` whose
pending action resolves to a registered capability changes the state only
by appending exactly one observation turn to the history, clearing the
pending action and input, and setting `last_observation`; iterations,
thought and final response are untouched.  A pending action that is
absent, `None` or the empty string leaves the state entirely unchanged. -/
theorem claim_C10 (f₁ f₂ f₃ f₄ f₅ t n : Bool) (c₁ c₂ c₃ c₄ c₅ : Capability)
    (state : WorkspaceAgentState) :
    (∀ a cap, state.action = Option.some a →
      tool_get (_initialise_tools f₁ f₂ f₃ f₄ f₅ t n c₁ c₂ c₃ c₄ c₅) a = Option.some cap →
      (∃ obs,
        act_node (_initialise_tools f₁ f₂ f₃ f₄ f₅ t n c₁ c₂ c₃ c₄ c₅) state =
          { state with
            messages := state.messages ++ [Message.tool obs a],
            action := Option.none, action_input := PyVal.none,
            last_observation := Option.some obs }) ∧
      (act_node (_initialise_tools f₁ f₂ f₃ f₄ f₅ t n c₁ c₂ c₃ c₄ c₅) state).iterations
        = state.iterations ∧
      (act_node (_initialise_tools f₁ f₂ f₃ f₄ f₅ t n c₁ c₂ c₃ c₄ c₅) state).thought
        = state.thought ∧
      (act_node (_initialise_tools f₁ f₂ f₃ f₄ f₅ t n c₁ c₂ c₃ c₄ c₅) state).final_response
        = state.final_response) ∧
    (state.action = Option.none ∨ state.action = Option.some "" →
      act_node (_initialise_tools f₁ f₂ f₃ f₄ f₅ t n c₁ c₂ c₃ c₄ c₅) state = state) := by
  constructor
  · intro a cap ha hcap
    have hne : a ≠ "" := init_key_ne_empty f₁ f₂ f₃ f₄ f₅ t n c₁ c₂ c₃ c₄ c₅ a cap hcap
    have hmain : act_node (_initialise_tools f₁ f₂ f₃ f₄ f₅ t n c₁ c₂ c₃ c₄ c₅) state =
        { state with
          messages := state.messages ++ [Message.tool
            (match cap (_normalise_tool_input state.action_input) with
             | Except.error exc => tool_fallback_message a ++ " Error: " ++ exc
             | Except.ok result => _render_observation result) a],
          action := Option.none, action_input := PyVal.none,
          last_observation := Option.some
            (match cap (_normalise_tool_input state.action_input) with
             | Except.error exc => tool_fallback_message a ++ " Error: " ++ exc
             | Except.ok result => _render_observation result) } := by
      unfold act_node
      rw [ha]
      simp [hne, hcap]
    refine ⟨⟨_, hmain⟩, ?_, ?_, ?_⟩ <;> rw [hmain]
  · intro hfalsy
    rcases hfalsy with hnone | hempty
    · unfold act_node
      rw [hnone]
    · unfold act_node
      rw [hempty]
      simp

/-- A capability echoing its input, for witnesses. -/
def echoCap : Capability := fun v => Except.ok v

/-- A state with the shell action pending, for the C10 witness. -/
def stateC10 : WorkspaceAgentState :=
  { initialState [] with action := Option.some "shell", action_input := PyVal.str "ls" }

/-- Witness for C10: a registry with only the shell tool enabled, an
echoing capability, and a pending `"shell"` action. -/
theorem claim_C10_wit :
    (∃ obs,
      act_node (_initialise_tools true false false false false false false
          echoCap echoCap echoCap echoCap echoCap) stateC10 =
        { stateC10 with
          messages := stateC10.messages ++ [Message.tool obs "shell"],
          action := Option.none, action_input := PyVal.none,
          last_observation := Option.some obs }) ∧
    (act_node (_initialise_tools true false false false false false false
        echoCap echoCap echoCap echoCap echoCap) stateC10).iterations = stateC10.iterations ∧
    (act_node (_initialise_tools true false false false false false false
        echoCap echoCap echoCap echoCap echoCap) stateC10).thought = stateC10.thought ∧
    (act_node (_initialise_tools true false false false false false false
        echoCap echoCap echoCap echoCap echoCap) stateC10).final_response
      = stateC10.final_response :=
  (claim_C10 true false false false false false false echoCap echoCap echoCap echoCap echoCap
    stateC10).1 "shell" echoCap rfl rfl

section MachineLemmas

/-- `END` is absorbing under `execAgent`. -/
theorem execAgent_done (planner : String → String) (config : WorkspaceAgentConfig) (tools : Tools) :
    ∀ (fuel : Nat) (s : WorkspaceAgentState),
      execAgent planner config tools fuel (GraphNode.done, s) = (GraphNode.done, s) := by
  intro fuel s
  cases fuel with
  | zero => rfl
  | succ f => simp [execAgent]

/-- Reachability is preserved by running the machine. -/
theorem reach_execAgent (planner : String → String) (config : WorkspaceAgentConfig) (tools : Tools)
    (h : List Message) : ∀ (fuel : Nat) (ns : GraphNode × WorkspaceAgentState),
    ReachesAgent planner config tools h ns →
    ReachesAgent planner config tools h (execAgent planner config tools fuel ns) := by
  intro fuel
  induction fuel with
  | zero => intro ns hr; exact hr
  | succ f ih =>
    intro ns hr
    simp only [execAgent]
    split
    · exact hr
    · exact ih _ (ReachesAgent.next ns hr)

/-- Whenever the machine is about to execute the Act node, the pending
action is a registered, non-`finish` name. -/
theorem reach_act_registered (planner : String → String) (config : WorkspaceAgentConfig)
    (tools : Tools) (h : List Message) :
    ∀ ns, ReachesAgent planner config tools h ns → ns.1 = GraphNode.act →
      ∃ a, ns.2.action = Option.some a ∧ a ≠ "finish" ∧ (tool_get tools a).isSome = true := by
  intro ns hr
  induction hr with
  | start => intro hact; cases hact
  | next ns' hr' ih =>
    obtain ⟨node, s⟩ := ns'
    cases node with
    | plan =>
      intro hact
      simp only [stepAgent] at hact ⊢
      cases hrt : plan_router tools config (plan_node planner config tools s) with
      | toAct =>
        obtain ⟨_, a, ha, hfin, hmem⟩ := plan_router_toAct_elim tools config _ hrt
        exact ⟨a, ha, hfin, hmem⟩
      | toEnd => rw [hrt] at hact; simp at hact
    | act => intro hact; cases hact
    | done => intro hact; cases hact

/-- Iteration bounds along every reachable configuration: the counter
never exceeds the budget, and both worker nodes only execute strictly
below the budget. -/
theorem reach_iter_inv (planner : String → String) (config : WorkspaceAgentConfig)
    (tools : Tools) (h : List Message) (hN : 1 ≤ config.max_iterations) :
    ∀ ns, ReachesAgent planner config tools h ns →
      ns.2.iterations ≤ config.max_iterations ∧
      (ns.1 = GraphNode.plan → ns.2.iterations < config.max_iterations) ∧
      (ns.1 = GraphNode.act → ns.2.iterations < config.max_iterations) := by
  intro ns hr
  induction hr with
  | start =>
    refine ⟨Nat.zero_le _, fun _ => hN, fun hact => ?_⟩
    cases hact
  | next ns' hr' ih =>
    obtain ⟨node, s⟩ := ns'
    cases node with
    | plan =>
      have hlt : s.iterations < config.max_iterations := ih.2.1 rfl
      simp only [stepAgent]
      cases hrt : plan_router tools config (plan_node planner config tools s) with
      | toAct =>
        have helim := plan_router_toAct_elim tools config _ hrt
        refine ⟨Nat.le_of_lt helim.1, fun hpl => ?_, fun _ => helim.1⟩
        cases hpl
      | toEnd =>
        refine ⟨?_, fun hpl => ?_, fun hact => ?_⟩
        · rw [plan_node_iterations]
          exact hlt
        · cases hpl
        · cases hact
    | act =>
      have hlt : s.iterations < config.max_iterations := ih.2.2 rfl
      simp only [stepAgent]
      rw [act_node_iterations]
      exact ⟨Nat.le_of_lt hlt, fun _ => hlt, fun hact => by cases hact⟩
    | done =>
      simp only [stepAgent]
      refine ⟨ih.1, ?_, ?_⟩
      · intro hpl
        cases hpl
      · intro hact
        cases hact

/-- One machine step adds one to the counter exactly when it executes
the Plan node. -/
theorem stepAgent_iterations (planner : String → String) (config : WorkspaceAgentConfig)
    (tools : Tools) (ns : GraphNode × WorkspaceAgentState) :
    (stepAgent planner config tools ns).2.iterations =
      ns.2.iterations + (if ns.1 = GraphNode.plan then 1 else 0) := by
  obtain ⟨node, s⟩ := ns
  cases node with
  | plan =>
    simp only [stepAgent]
    cases plan_router tools config (plan_node planner config tools s) with
    | toAct => simp [plan_node_iterations]
    | toEnd => simp [plan_node_iterations]
  | act =>
    simp only [stepAgent]
    rw [act_node_iterations]
    simp
  | done => simp [stepAgent]

/-- The final counter equals the initial counter plus the number of Plan
node executions in the trace. -/
theorem execAgent_iterations (planner : String → String) (config : WorkspaceAgentConfig)
    (tools : Tools) : ∀ (fuel : Nat) (ns : GraphNode × WorkspaceAgentState),
    (execAgent planner config tools fuel ns).2.iterations =
      ns.2.iterations + (traceAgent planner config tools fuel ns).count GraphNode.plan := by
  intro fuel
  induction fuel with
  | zero => intro ns; simp [execAgent, traceAgent]
  | succ f ih =>
    intro ns
    simp only [execAgent, traceAgent]
    split
    · simp
    · rw [ih (stepAgent planner config tools ns)]
      rw [stepAgent_iterations]
      rw [List.count_cons]
      rcases Decidable.em (ns.1 = GraphNode.plan) with hpl | hpl
      · simp [hpl]
        omega
      · have : (ns.1 == GraphNode.plan) = false := by
          simp [hpl]
        simp [hpl, this]

end MachineLemmas

/-- A terminal Plan Step stores a nonempty final answer whenever the
planner's raw output was nonempty. -/
theorem plan_node_final_nonempty (planner : String → String) (config : WorkspaceAgentConfig)
    (tools : Tools) (s : WorkspaceAgentState)
    (hplanner : planner (_render_history s.messages) ≠ "")
    (hterm : validated_action
        (pyGet (_parse_plan (planner (_render_history s.messages))) "action" (PyVal.str "finish"))
        tools = "finish" ∨ s.iterations + 1 ≥ config.max_iterations) :
    ∃ t, (plan_node planner config tools s).final_response = Option.some t ∧ t ≠ "" := by
  rw [plan_node_final_of_terminal planner config tools s hterm]
  refine ⟨_, rfl, ?_⟩
  apply final_text_nonempty
  · exact validated_plan_objFree _ _ (parse_plan_objFree _)
  · exact thought_nonempty _ _ (parse_plan_objFree _) hplanner

/-- Starting the machine at the Plan node with at most `m` iterations of
budget left, `2 * m + 1` steps reach `END` with a nonempty final answer,
provided every planner output is nonempty. -/
theorem execAgent_terminates (planner : String → String) (config : WorkspaceAgentConfig)
    (tools : Tools) (hplanner : ∀ x, planner x ≠ "") :
    ∀ (m : Nat) (s : WorkspaceAgentState),
      config.max_iterations ≤ s.iterations + m →
      (execAgent planner config tools (2 * m + 1) (GraphNode.plan, s)).1 = GraphNode.done ∧
      ∃ t, (execAgent planner config tools (2 * m + 1) (GraphNode.plan, s)).2.final_response
          = Option.some t ∧ t ≠ "" := by
  intro m
  induction m with
  | zero =>
    intro s hle
    have hend : plan_router tools config (plan_node planner config tools s) = PlanRoute.toEnd := by
      apply plan_router_end_of_budget
      rw [plan_node_iterations]
      omega
    simp only [execAgent, stepAgent, hend]
    refine ⟨by simp, ?_⟩
    have := plan_node_final_nonempty planner config tools s (hplanner _) (Or.inr (by omega))
    simpa using this
  | succ m ih =>
    intro s hle
    rw [show 2 * (m + 1) + 1 = (2 * m + 1) + 1 + 1 by omega]
    simp only [execAgent, stepAgent]
    cases hrt : plan_router tools config (plan_node planner config tools s) with
    | toEnd =>
      have hterm := plan_router_end_after_plan planner config tools s hrt
      have hfinal := plan_node_final_nonempty planner config tools s (hplanner _) hterm
      refine ⟨by simp, ?_⟩
      simpa using hfinal
    | toAct =>
      simp only [reduceIte, execAgent, stepAgent]
      have hit : config.max_iterations ≤ (act_node tools (plan_node planner config tools s)).iterations + m := by
        rw [act_node_iterations, plan_node_iterations]
        omega
      exact ih (act_node tools (plan_node planner config tools s)) hit

/-- C1 (amended to budgets of at least one): with `max_iterations = N ≥ 1`,
the router terminates whenever the counter has reached `N` regardless of
the decided action, the counter never exceeds `N` in any reachable
configuration, the Plan node only ever executes strictly below the
budget (so it is never invoked again once the budget is reached), and
every trace executes the Plan node at most `N` times. -/
theorem claim_C1 (planner : String → String) (config : WorkspaceAgentConfig) (tools : Tools)
    (h : List Message) (hN : 1 ≤ config.max_iterations) :
    (∀ s : WorkspaceAgentState, s.iterations ≥ config.max_iterations →
      plan_router tools config s = PlanRoute.toEnd) ∧
    (∀ ns, ReachesAgent planner config tools h ns →
      ns.2.iterations ≤ config.max_iterations) ∧
    (∀ ns, ReachesAgent planner config tools h ns → ns.1 = GraphNode.plan →
      ns.2.iterations < config.max_iterations) ∧
    (∀ fuel, (traceAgent planner config tools fuel (GraphNode.plan, initialState h)).count
        GraphNode.plan ≤ config.max_iterations) := by
  refine ⟨fun s hs => plan_router_end_of_budget tools config s hs, ?_, ?_, ?_⟩
  · intro ns hr
    exact (reach_iter_inv planner config tools h hN ns hr).1
  · intro ns hr hpl
    exact (reach_iter_inv planner config tools h hN ns hr).2.1 hpl
  · intro fuel
    have hreach := reach_execAgent planner config tools h fuel _
      (ReachesAgent.start)
    have hbound := (reach_iter_inv planner config tools h hN _ hreach).1
    have hacct := execAgent_iterations planner config tools fuel (GraphNode.plan, initialState h)
    have hzero : (initialState h).iterations = 0 := rfl
    simp only [hzero] at hacct
    omega

/-- Planner stub returning fixed prose (parsed as a finish fallback). -/
def plannerProse : String → String := fun _ => "working on it"

/-- Budget-one configuration for the C1 witness. -/
def cfgOne : WorkspaceAgentConfig := { max_iterations := 1 }

/-- Witness for C1 at budget one: the trace executes Plan at most once. -/
theorem claim_C1_wit :
    1 ≤ cfgOne.max_iterations ∧
    (traceAgent plannerProse cfgOne [] 5 (GraphNode.plan, initialState [])).count
      GraphNode.plan ≤ cfgOne.max_iterations :=
  ⟨by decide, (claim_C1 plannerProse cfgOne [] [] (by decide)).2.2.2 5⟩

/-- Budget-zero configuration for the C1 counterexample. -/
def cfgZero : WorkspaceAgentConfig := { max_iterations := 0 }

/-- Counterexample to C1 as stated: with `max_iterations = 0` the Plan
Step still executes once (the graph's entry point), so it is invoked
more than `N` times and the counter exceeds `N`. -/
theorem claim_C1_cx :
    cfgZero.max_iterations = 0 ∧
    (traceAgent plannerProse cfgZero [] 2 (GraphNode.plan, initialState [])).count
      GraphNode.plan = 1 ∧
    (execAgent plannerProse cfgZero [] 2 (GraphNode.plan, initialState [])).2.iterations = 1 :=
  ⟨rfl, rfl, rfl⟩

/-- Whether a decode result is a JSON object (Python `Mapping`). -/
def isJsonObjResult : Option PyVal → Bool
  | Option.some (PyVal.dict _) => true
  | _ => false

/-- C2 (amended to fence-free outputs): for every planner output that
contains no fenced-block delimiter and does not decode to a JSON object,
the Plan Parser returns `action = "finish"` with final answer equal to
the trimmed input text (and, being a total function, never raises).
When a fence delimiter is present, the final answer is the extracted
fence candidate instead. -/
theorem claim_C2 (text : String)
    (hnofence : hasFence (pyStrip text.data) = false)
    (hnoobj : isJsonObjResult (jsonLoads (pyStripS text)) = false) :
    pyGet (_parse_plan text) "action" PyVal.none = PyVal.str "finish" ∧
    pyGet (_parse_plan text) "final_response" PyVal.none = PyVal.str (pyStripS text) := by
  simp only [_parse_plan, hnofence, Bool.false_eq_true, if_false]
  unfold decode_candidate
  cases hl : jsonLoads ⟨pyStrip text.data⟩ with
  | none => simp [hl, pyGet, pyStripS]
  | some v =>
    cases v with
    | dict kvs =>
      have : isJsonObjResult (jsonLoads (pyStripS text)) = true := by
        simp only [pyStripS]
        rw [hl]
        rfl
      rw [this] at hnoobj
      cases hnoobj
    | none => simp [hl, pyGet, pyStripS]
    | bool b => simp [hl, pyGet, pyStripS]
    | int i => simp [hl, pyGet, pyStripS]
    | str s => simp [hl, pyGet, pyStripS]
    | list xs => simp [hl, pyGet, pyStripS]
    | obj o => simp [hl, pyGet, pyStripS]

/-- Witness for C2 at plain prose. -/
theorem claim_C2_wit :
    pyGet (_parse_plan "plain prose answer") "action" PyVal.none = PyVal.str "finish" ∧
    pyGet (_parse_plan "plain prose answer") "final_response" PyVal.none
      = PyVal.str (pyStripS "plain prose answer") :=
  claim_C2 "plain prose answer" (by decide) (by decide)

/-- Counterexample to C2 as stated: a non-decodable output containing a
fence delimiter falls back to the extracted fence candidate, not to the
full trimmed text. -/
theorem claim_C2_cx :
    pyGet (_parse_plan "hello ``` world ```") "final_response" PyVal.none = PyVal.str "hello" ∧
    pyStripS "hello ``` world ```" ≠ "hello" :=
  ⟨rfl, by decide⟩

/-- C7 (amended to nonempty planner outputs): every run over a valid
configuration whose planner invocations all succeed reaches the terminal
state within `2 * max_iterations + 1` steps, and its final answer is a
nonempty string provided every planner output is nonempty — even when
those outputs are malformed. -/
theorem claim_C7 (planner : String → String) (config : WorkspaceAgentConfig) (tools : Tools)
    (h : List Message) (hplanner : ∀ x, planner x ≠ "") :
    (execAgent planner config tools (2 * config.max_iterations + 1)
      (GraphNode.plan, initialState h)).1 = GraphNode.done ∧
    ∃ t, (execAgent planner config tools (2 * config.max_iterations + 1)
      (GraphNode.plan, initialState h)).2.final_response = Option.some t ∧ t ≠ "" :=
  execAgent_terminates planner config tools hplanner config.max_iterations (initialState h)
    (by simp [initialState])

/-- Planner stub with nonempty prose output, for the C7 witness. -/
def plannerDone : String → String := fun _ => "all done"

/-- Witness for C7 at a concrete run. -/
theorem claim_C7_wit :
    (execAgent plannerDone defaultConfig [] (2 * defaultConfig.max_iterations + 1)
      (GraphNode.plan, initialState [Message.human "Test task"])).1 = GraphNode.done ∧
    ∃ t, (execAgent plannerDone defaultConfig [] (2 * defaultConfig.max_iterations + 1)
      (GraphNode.plan, initialState [Message.human "Test task"])).2.final_response
        = Option.some t ∧ t ≠ "" :=
  claim_C7 plannerDone defaultConfig [] [Message.human "Test task"]
    (fun _ => by unfold plannerDone; decide)

/-- Planner stub returning the empty string. -/
def plannerEmpty : String → String := fun _ => ""

/-- Counterexample to C7 as stated: when the planner returns the empty
string, the run terminates but the final answer is the empty string. -/
theorem claim_C7_cx :
    (execAgent plannerEmpty cfgOne [] 3 (GraphNode.plan, initialState [])).1 = GraphNode.done ∧
    (execAgent plannerEmpty cfgOne [] 3 (GraphNode.plan, initialState [])).2.final_response
      = Option.some "" :=
  ⟨rfl, rfl⟩

/-- C8 (amended): an Act Step whose pending action is absent from the
Tool Registry sets the diagnostic final answer naming the missing action
and sets the pending action to the terminal marker `"finish"` (it is not
cleared); and within a compiled-graph run such an invocation never
occurs, because the plan router routes only registered actions to the
Act node. -/
theorem claim_C8 :
    (∀ (tools : Tools) (state : WorkspaceAgentState) (a : String),
      state.action = Option.some a → a ≠ "" → tool_get tools a = Option.none →
      act_node tools state =
        { state with
          final_response := Option.some
            ("No tool named '" ++ a ++ "' is available. Summarise progress and stop."),
          action := Option.some "finish" }) ∧
    (∀ (planner : String → String) (config : WorkspaceAgentConfig) (tools : Tools)
      (h : List Message) (ns : GraphNode × WorkspaceAgentState),
      ReachesAgent planner config tools h ns → ns.1 = GraphNode.act →
      ∃ a, ns.2.action = Option.some a ∧ (tool_get tools a).isSome = true) := by
  constructor
  · intro tools state a ha hne hmiss
    unfold act_node
    rw [ha]
    simp [hne, hmiss]
  · intro planner config tools h ns hr hact
    obtain ⟨a, ha, _, hmem⟩ := reach_act_registered planner config tools h ns hr hact
    exact ⟨a, ha, hmem⟩

/-- State with an unregistered pending action, for C8. -/
def stateC8 : WorkspaceAgentState := { initialState [] with action := Option.some "search" }

/-- Witness for C8 at an empty registry and pending action `"search"`. -/
theorem claim_C8_wit :
    act_node [] stateC8 =
      { stateC8 with
        final_response := Option.some
          "No tool named 'search' is available. Summarise progress and stop.",
        action := Option.some "finish" } :=
  claim_C8.1 [] stateC8 "search" rfl (by decide) rfl

/-- Counterexample to C8 as stated: the pending action is not cleared by
the missing-capability branch — it is set to `"finish"`. -/
theorem claim_C8_cx :
    (act_node [] { initialState [] with action := Option.some "missing" }).action
        = Option.some "finish" ∧
    (act_node [] { initialState [] with action := Option.some "missing" }).action
        ≠ Option.none :=
  ⟨rfl, by decide⟩

section FenceLemmas

/-- `dropWhile` does not cross a surviving element into an appended
tail. -/
theorem dropWhile_append_of_ne_nil {p : Char → Bool} {a : List Char} (b : List Char)
    (h : a.dropWhile p ≠ []) : (a ++ b).dropWhile p = a.dropWhile p ++ b := by
  induction a with
  | nil => exact absurd rfl h
  | cons c rest ih =>
    by_cases hc : p c
    · simp only [List.cons_append, List.dropWhile_cons_of_pos hc]
      rw [List.dropWhile_cons_of_pos hc] at h
      exact ih h
    · simp only [List.cons_append, List.dropWhile_cons_of_neg hc]

/-- The head surviving `dropWhile` fails the predicate. -/
theorem dropWhile_head_false {p : Char → Bool} : ∀ {l : List Char} {c : Char} {t : List Char},
    l.dropWhile p = c :: t → p c = false := by
  intro l
  induction l with
  | nil => intro c t h; cases h
  | cons d rest ih =>
    intro c t h
    by_cases hd : p d
    · rw [List.dropWhile_cons_of_pos hd] at h
      exact ih h
    · rw [List.dropWhile_cons_of_neg hd] at h
      cases h
      simpa using hd

/-- `dropWhile` is idempotent. -/
theorem dropWhile_idem {p : Char → Bool} (l : List Char) :
    (l.dropWhile p).dropWhile p = l.dropWhile p := by
  cases h : l.dropWhile p with
  | nil => rfl
  | cons c t =>
    rw [List.dropWhile_cons_of_neg]
    rw [dropWhile_head_false h]
    simp

/-- A left strip is the identity on a list starting with a
non-whitespace character. -/
theorem stripL_cons_of (c : Char) (l : List Char) (hc : pySpace c = false) :
    stripL (c :: l) = c :: l := by
  unfold stripL
  rw [List.dropWhile_cons_of_neg (by simp [hc])]

/-- A right strip is the identity when the last element is not
whitespace. -/
theorem stripR_concat_of (l : List Char) (c : Char) (hc : pySpace c = false) :
    stripR (l ++ [c]) = l ++ [c] := by
  unfold stripR
  rw [List.reverse_append]
  simp only [List.reverse_cons, List.reverse_nil, List.nil_append, List.singleton_append]
  rw [List.dropWhile_cons_of_neg (by simp [hc])]
  simp

/-- A right strip discards a trailing whitespace character. -/
theorem stripR_concat_ws (l : List Char) (c : Char) (hc : pySpace c = true) :
    stripR (l ++ [c]) = stripR l := by
  unfold stripR
  rw [List.reverse_append]
  simp only [List.reverse_cons, List.reverse_nil, List.nil_append, List.singleton_append]
  rw [List.dropWhile_cons_of_pos (by simp [hc])]

/-- A right strip passes over a prepended block when something survives
on the right. -/
theorem stripR_append_of_ne_nil (a b : List Char) (h : stripR b ≠ []) :
    stripR (a ++ b) = a ++ stripR b := by
  unfold stripR at h ⊢
  rw [List.reverse_append]
  have hb : b.reverse.dropWhile pySpace ≠ [] := by
    intro hc
    apply h
    rw [hc]
    rfl
  rw [dropWhile_append_of_ne_nil _ hb]
  rw [List.reverse_append, List.reverse_reverse]

/-- A right strip passes over a leading element when something survives
on the right. -/
theorem stripR_cons_of_ne_nil (c : Char) (l : List Char) (h : stripR l ≠ []) :
    stripR (c :: l) = c :: stripR l := by
  have := stripR_append_of_ne_nil [c] l h
  simpa using this

/-- The right strip is idempotent. -/
theorem stripR_idem (l : List Char) : stripR (stripR l) = stripR l := by
  unfold stripR
  rw [List.reverse_reverse, dropWhile_idem]

/-- A left strip skips a leading whitespace character. -/
theorem stripL_cons_ws (c : Char) (l : List Char) (hc : pySpace c = true) :
    stripL (c :: l) = stripL l := by
  unfold stripL
  rw [List.dropWhile_cons_of_pos (by simp [hc])]

/-- The original list extends its right strip. -/
theorem stripR_append_rest (l : List Char) :
    l = stripR l ++ (l.reverse.takeWhile pySpace).reverse := by
  unfold stripR
  rw [← List.reverse_append]
  rw [List.takeWhile_append_dropWhile]
  rw [List.reverse_reverse]

/-- The right strip of a nonempty-after-strip list ends in
non-whitespace. -/
theorem stripR_getLast (l : List Char) (c : Char) (t : List Char)
    (h : l.reverse.dropWhile pySpace = c :: t) : stripR l = t.reverse ++ [c] := by
  unfold stripR
  rw [h]
  simp

/-- A list whose `pyStrip` is nonempty has a nonempty right strip. -/
theorem stripR_ne_nil_of_strip (l : List Char) (h : pyStrip l ≠ []) : stripR l ≠ [] := by
  intro hc
  apply h
  unfold pyStrip
  rw [hc]
  rfl

end FenceLemmas

section FenceLemmas2

/-- Unfolding `hasFence` one character at a time. -/
theorem hasFence_cons (c : Char) (l : List Char) :
    hasFence (c :: l) = (fenceDelim.isPrefixOf (c :: l) || hasFence l) := by
  unfold hasFence
  simp only [findFence]
  by_cases hp : fenceDelim.isPrefixOf (c :: l) = true
  · simp [hp]
  · simp only [Bool.not_eq_true] at hp
    simp only [hp, Bool.false_eq_true, if_false, Bool.false_or]
    cases hf : findFence l with
    | none => simp
    | some p =>
      obtain ⟨pre, post⟩ := p
      simp

/-- `isPrefixOf` survives appending on the right. -/
theorem isPrefixOf_append_mono : ∀ (s x y : List Char),
    s.isPrefixOf x = true → s.isPrefixOf (x ++ y) = true := by
  intro s
  induction s with
  | nil => intro x y _; simp [List.isPrefixOf]
  | cons a s' ih =>
    intro x y h
    cases x with
    | nil => simp [List.isPrefixOf] at h
    | cons b x' =>
      simp only [List.isPrefixOf, Bool.and_eq_true] at h
      simp only [List.cons_append, List.isPrefixOf, Bool.and_eq_true]
      exact ⟨h.1, ih x' y h.2⟩

/-- A fence in a list survives appending on the right. -/
theorem hasFence_append_right : ∀ (a b : List Char),
    hasFence a = true → hasFence (a ++ b) = true := by
  intro a
  induction a with
  | nil => intro b h; simp [hasFence, findFence] at h
  | cons c rest ih =>
    intro b h
    rw [hasFence_cons] at h
    rw [List.cons_append, hasFence_cons]
    rcases Bool.or_eq_true_iff.mp h with hpre | hrec
    · rw [← List.cons_append]
      rw [isPrefixOf_append_mono _ _ _ hpre]
      simp
    · rw [ih b hrec]
      simp

/-- No fence in `a ++ b` means none in `a`. -/
theorem hasFence_of_append_left (a b : List Char) (h : hasFence (a ++ b) = false) :
    hasFence a = false := by
  by_contra hc
  rw [hasFence_append_right a b (by simpa using hc)] at h
  cases h

/-- A fence in the tail is a fence in the whole. -/
theorem hasFence_append_left_lift : ∀ (a b : List Char),
    hasFence b = true → hasFence (a ++ b) = true := by
  intro a
  induction a with
  | nil => intro b h; simpa using h
  | cons c rest ih =>
    intro b h
    rw [List.cons_append, hasFence_cons, ih b h]
    simp

/-- No fence in the whole means none in a right part. -/
theorem hasFence_of_append_right (a b : List Char) (h : hasFence (a ++ b) = false) :
    hasFence b = false := by
  by_contra hc
  rw [hasFence_append_left_lift a b (by simpa using hc)] at h
  cases h

/-- Characters other than the backtick are transparent to the fence
search. -/
theorem hasFence_append_no_bt : ∀ (a b : List Char), (∀ c ∈ a, c ≠ '`') →
    hasFence (a ++ b) = hasFence b := by
  intro a
  induction a with
  | nil => intro b _; rfl
  | cons c rest ih =>
    intro b hns
    rw [List.cons_append, hasFence_cons]
    have hc : c ≠ '`' := hns c (List.mem_cons_self c rest)
    have hpre : fenceDelim.isPrefixOf (c :: (rest ++ b)) = false := by
      simp [fenceDelim, List.isPrefixOf, Ne.symm hc]
    rw [hpre]
    rw [ih b (fun x hx => hns x (List.mem_cons_of_mem c hx))]
    simp

/-- The fence search finds a leading delimiter immediately. -/
theorem findFence_at_start (r : List Char) :
    findFence (fenceDelim ++ r) = Option.some ([], r) := by
  show findFence ('`' :: '`' :: '`' :: r) = Option.some ([], r)
  simp only [findFence]
  simp [fenceDelim, List.isPrefixOf]

/-- No fence in `x` and no trailing backtick in `x` mean the first fence
of `x ++ fence ++ r` sits exactly at the boundary. -/
theorem findFence_boundary : ∀ (x r : List Char), hasFence x = false →
    x.getLast? ≠ Option.some '`' →
    findFence (x ++ (fenceDelim ++ r)) = Option.some (x, r) := by
  intro x
  induction x with
  | nil => intro r _ _; simpa using findFence_at_start r
  | cons c x' ih =>
    intro r hnf hlast
    have hpre : fenceDelim.isPrefixOf (c :: (x' ++ (fenceDelim ++ r))) = false := by
      cases x' with
      | nil =>
        have hc : c ≠ '`' := by
          intro hc
          apply hlast
          rw [hc]
          rfl
        simp [fenceDelim, List.isPrefixOf, Ne.symm hc]
      | cons d x'' =>
        cases x'' with
        | nil =>
          have hd : d ≠ '`' := by
            intro hd
            apply hlast
            rw [hd]
            rfl
          simp [fenceDelim, List.isPrefixOf, Ne.symm hd]
        | cons e x''' =>
          by_contra hcon
          rw [Bool.not_eq_false] at hcon
          simp only [List.cons_append, fenceDelim, List.isPrefixOf, Bool.and_eq_true,
            beq_iff_eq] at hcon
          obtain ⟨hc, hd, he, _⟩ := hcon
          have hff : hasFence (c :: d :: e :: x''') = true := by
            rw [hasFence_cons]
            have hpp : fenceDelim.isPrefixOf (c :: d :: e :: x''') = true := by
              simp only [fenceDelim, List.isPrefixOf, Bool.and_eq_true, beq_iff_eq]
              exact ⟨hc, hd, he, trivial⟩
            rw [hpp]
            simp
          rw [hff] at hnf
          cases hnf
    rw [List.cons_append]
    simp only [findFence]
    rw [hpre]
    simp only [Bool.false_eq_true, if_false]
    have hx' : hasFence x' = false := by
      rw [hasFence_cons] at hnf
      exact (Bool.or_eq_false_iff.mp hnf).2
    have hlast' : x'.getLast? ≠ Option.some '`' := by
      cases x' with
      | nil => simp
      | cons d x'' =>
        rw [List.getLast?_cons_cons] at hlast
        exact hlast
    rw [ih r hx' hlast']

/-- Unfold one split step with positive fuel. -/
theorem splitFence_succ (n : Nat) (hn : n ≠ 0) (cs : List Char) :
    splitFence n cs =
      (match findFence cs with
       | Option.none => [cs]
       | Option.some (pre, post) => pre :: splitFence (n - 1) post) := by
  cases n with
  | zero => exact absurd rfl hn
  | succ m => simp [splitFence]

/-- Splitting the empty list gives one empty field. -/
theorem splitFence_nil (n : Nat) : splitFence n [] = [[]] := by
  cases n with
  | zero => rfl
  | succ m => simp [splitFence, findFence]

end FenceLemmas2

section ParseShape

/-- A list is a prefix of itself. -/
theorem isPrefixOf_self : ∀ (s : List Char), s.isPrefixOf s = true := by
  intro s
  induction s with
  | nil => rfl
  | cons a t ih => simp [List.isPrefixOf, ih]

/-- `_parse_plan` on fence-free text decodes the stripped text. -/
theorem parse_plan_no_fence (t : String) (h : hasFence (pyStrip t.data) = false) :
    _parse_plan t = decode_candidate (pyStrip t.data) := by
  simp [_parse_plan, h]

/-- One step of the segment-collection loop, with the lets expanded. -/
theorem fenceSegments_cons (b : List Char) (bs : List (List Char)) :
    fenceSegments (b :: bs) =
      (if pyStrip b = [] then fenceSegments bs
       else (if ("json".data.isPrefixOf ((pyStrip b).map Char.toLower))
          then pyStrip ((pyStrip b).drop 4) else pyStrip b) :: fenceSegments bs) := rfl

/-- `_parse_plan` on fenced text decodes the first collected segment. -/
theorem parse_plan_fence_seg (t : String) (seg : List Char) (rest : List (List Char))
    (h1 : hasFence (pyStrip t.data) = true)
    (h2 : fenceSegments (splitFence ((pyStrip t.data).length + 1) (pyStrip t.data)) = seg :: rest) :
    _parse_plan t = decode_candidate seg := by
  simp [_parse_plan, h1, h2]

end ParseShape

set_option maxHeartbeats 1600000 in
theorem claim_C6 (tag inner : String)
    (htag : pyLowerS tag = "json")
    (hinner : hasFence (inner.data ++ ['\n']) = false)
    (hne : pyStrip inner.data ≠ []) :
    _parse_plan ("```" ++ tag ++ "\n" ++ inner ++ "\n```") = _parse_plan inner := by
  -- facts about the tag characters
  have hmap : tag.data.map Char.toLower = "json".data := congrArg String.data htag
  have hlen : tag.data.length = 4 := by
    have := congrArg List.length hmap
    simpa using this
  have hmem : ∀ c ∈ tag.data, Char.toLower c = 'j' ∨ Char.toLower c = 's'
      ∨ Char.toLower c = 'o' ∨ Char.toLower c = 'n' := by
    intro c hc
    have hmm : Char.toLower c ∈ "json".data := by
      rw [← hmap]
      exact List.mem_map_of_mem _ hc
    have hjson : "json".data = ['j', 's', 'o', 'n'] := rfl
    rw [hjson] at hmm
    simpa using hmm
  have hnbt : ∀ c ∈ tag.data, c ≠ '`' := by
    intro c hc heq
    subst heq
    rcases hmem _ hc with h | h | h | h <;> exact absurd h (by decide)
  have hnws : ∀ c ∈ tag.data, pySpace c = false := by
    intro c hc
    by_contra hws
    rw [Bool.not_eq_false] at hws
    have hcases := hws
    simp only [pySpace, Bool.or_eq_true, decide_eq_true_eq] at hcases
    rcases hcases with ((((h | h) | h) | h) | h) | h <;>
      (subst h; rcases hmem _ hc with h' | h' | h' | h' <;> exact absurd h' (by decide))
  -- the raw character data of the fenced text
  set TB := tag.data ++ ('\n' :: (inner.data ++ ['\n'])) with hTBdef
  have hT : ("```" ++ tag ++ "\n" ++ inner ++ "\n```").data
      = fenceDelim ++ (TB ++ fenceDelim) := by
    simp only [str_data_append, hTBdef]
    show ['`', '`', '`'] ++ tag.data ++ ['\n'] ++ inner.data ++ ['\n', '`', '`', '`']
      = _ ++ (_ ++ _)
    simp [fenceDelim, List.append_assoc]
  -- the fenced text survives stripping
  have hTne : (fenceDelim ++ (TB ++ fenceDelim) : List Char) ≠ [] := by
    simp [fenceDelim]
  have hshape : fenceDelim ++ (TB ++ fenceDelim)
      = (fenceDelim ++ TB ++ ['`', '`']) ++ ['`'] := by
    simp [fenceDelim, List.append_assoc]
  have hstripT : pyStrip (fenceDelim ++ (TB ++ fenceDelim)) = fenceDelim ++ (TB ++ fenceDelim) := by
    unfold pyStrip
    rw [hshape, stripR_concat_of _ '`' (by decide), ← hshape]
    show stripL ('`' :: ('`' :: '`' :: (TB ++ fenceDelim))) = _
    rw [stripL_cons_of _ _ (by decide)]
    rfl
  -- locating the two fences
  have hfF : findFence (fenceDelim ++ (TB ++ fenceDelim)) = Option.some ([], TB ++ fenceDelim) :=
    findFence_at_start _
  have hhf : hasFence (fenceDelim ++ (TB ++ fenceDelim)) = true := by
    unfold hasFence
    rw [hfF]
    rfl
  have hTBf : hasFence TB = false := by
    have hsh : TB = (tag.data ++ ['\n']) ++ (inner.data ++ ['\n']) := by
      simp [hTBdef, List.append_assoc]
    rw [hsh, hasFence_append_no_bt]
    · exact hinner
    · intro c hc
      rcases List.mem_append.mp hc with hin | hsingle
      · exact hnbt c hin
      · rw [List.mem_singleton.mp hsingle]
        decide
  have hTBlast : TB.getLast? = Option.some '\n' := by
    have hsh : TB = (tag.data ++ '\n' :: inner.data) ++ ['\n'] := by
      simp [hTBdef, List.append_assoc]
    rw [hsh, List.getLast?_concat]
  have hfB : findFence (TB ++ fenceDelim) = Option.some (TB, []) := by
    have := findFence_boundary TB [] hTBf (by rw [hTBlast]; decide)
    simpa using this
  -- the split of the whole text
  have hlenT : (fenceDelim ++ (TB ++ fenceDelim)).length ≠ 0 := by
    simp [fenceDelim]
  have hsplit : splitFence ((fenceDelim ++ (TB ++ fenceDelim)).length + 1)
      (fenceDelim ++ (TB ++ fenceDelim)) = [[], TB, []] := by
    rw [splitFence_succ _ (by omega) _]
    rw [hfF]
    simp only []
    rw [splitFence_succ _ (by simpa using hlenT) _]
    rw [hfB]
    simp only []
    rw [splitFence_nil]
  -- the right strip of the inner content
  have hsRne : stripR inner.data ≠ [] := stripR_ne_nil_of_strip _ hne
  have hsR1 : stripR (inner.data ++ ['\n']) = stripR inner.data :=
    stripR_concat_ws _ _ (by decide)
  have hsR2 : stripR ('\n' :: (inner.data ++ ['\n'])) = '\n' :: stripR inner.data := by
    rw [stripR_cons_of_ne_nil _ _ (by rw [hsR1]; exact hsRne), hsR1]
  -- the collected segment is the stripped inner content
  have htagne : tag.data ≠ [] := by
    intro hnil
    rw [hnil] at hlen
    cases hlen
  obtain ⟨c₀, t₀, hct⟩ := List.exists_cons_of_ne_nil htagne
  have hstripTB : pyStrip TB = tag.data ++ '\n' :: stripR inner.data := by
    unfold pyStrip
    rw [hTBdef, stripR_append_of_ne_nil _ _ (by rw [hsR2]; simp), hsR2]
    rw [hct, List.cons_append, stripL_cons_of _ _ (hnws c₀ (by rw [hct]; exact List.mem_cons_self _ _))]
  have hsegTag : "json".data.isPrefixOf ((tag.data ++ '\n' :: stripR inner.data).map Char.toLower) = true := by
    rw [List.map_append, hmap]
    exact isPrefixOf_append_mono _ _ _ (isPrefixOf_self _)
  have hdrop : (tag.data ++ '\n' :: stripR inner.data).drop 4 = '\n' :: stripR inner.data := by
    rw [← hlen]
    exact List.drop_left _ _
  have hstripdrop : pyStrip ('\n' :: stripR inner.data) = pyStrip inner.data := by
    unfold pyStrip
    rw [stripR_cons_of_ne_nil _ _ (by rw [stripR_idem]; exact hsRne), stripR_idem]
    rw [stripL_cons_ws _ _ (by decide)]
  have hsegs : fenceSegments [[], TB, []] = [pyStrip inner.data] := by
    rw [fenceSegments_cons, if_pos (show pyStrip ([] : List Char) = [] from rfl)]
    rw [fenceSegments_cons, if_neg (by rw [hstripTB, hct]; simp)]
    rw [hstripTB, if_pos hsegTag, hdrop, hstripdrop]
    rw [fenceSegments_cons, if_pos (show pyStrip ([] : List Char) = [] from rfl)]
    rw [fenceSegments]
  -- no fence in the stripped inner content
  have hfi : hasFence inner.data = false := hasFence_of_append_left _ _ hinner
  have hfsR : hasFence (stripR inner.data) = false := by
    have hr := stripR_append_rest inner.data
    rw [hr] at hfi
    exact hasFence_of_append_left _ _ hfi
  have hfstrip : hasFence (pyStrip inner.data) = false := by
    unfold pyStrip
    have ht := List.takeWhile_append_dropWhile pySpace (stripR inner.data)
    have : hasFence ((stripR inner.data).takeWhile pySpace ++ (stripR inner.data).dropWhile pySpace) = false := by
      rw [ht]
      exact hfsR
    exact hasFence_of_append_right _ _ this
  -- assemble both sides
  have hfence_eq : pyStrip ("```" ++ tag ++ "\n" ++ inner ++ "\n```").data
      = fenceDelim ++ (TB ++ fenceDelim) := by rw [hT, hstripT]
  have hL : _parse_plan ("```" ++ tag ++ "\n" ++ inner ++ "\n```")
      = decode_candidate (pyStrip inner.data) := by
    apply parse_plan_fence_seg _ _ []
    · rw [hfence_eq]
      exact hhf
    · rw [hfence_eq]
      rw [hsplit, hsegs]
  rw [hL, parse_plan_no_fence inner hfstrip]

/-- Projection of a string-valued decision field, used to compare
decisions concretely. -/
def getStr? : PyVal → Option String
  | PyVal.str s => Option.some s
  | _ => Option.none

/-- Inner JSON content for the C6 witness. -/
def innerC6 : String := "\x7b\"action\": \"finish\", \"final_response\": \"ok\"\x7d"

set_option maxHeartbeats 1600000 in
/-- Witness for C6 with an uppercase `JSON` tag. -/
theorem claim_C6_wit :
    _parse_plan ("```" ++ "JSON" ++ "\n" ++ innerC6 ++ "\n```") = _parse_plan innerC6 :=
  claim_C6 "JSON" innerC6 (by decide) (by decide) (by decide)

set_option maxHeartbeats 1600000 in
/-- Counterexample to C6 as stated: with the language tag `python` the
parser strips nothing, so the fenced output decodes to a fallback
decision that differs from the unfenced equivalent. -/
theorem claim_C6_cx :
    getStr? (pyGet (_parse_plan
        ("```python\n" ++ "\x7b\"action\": \"finish\", \"final_response\": \"ok\"\x7d" ++ "\n```"))
      "final_response" PyVal.none)
    ≠ getStr? (pyGet (_parse_plan "\x7b\"action\": \"finish\", \"final_response\": \"ok\"\x7d")
      "final_response" PyVal.none) := by
  decide
